import Mathlib

/-!
# qlex: the lexer of `libs/lexer`

A shallow embedding of `src/libs/lexer/src/lexer.cpp` and
`src/libs/lexer/include/lexer.hpp`.

Conventions of the embedding.

* A `std::string` is a `List Char`, one `Char` per byte; `'\0'` is `Char.ofNat 0`.
  `std::isdigit`, `std::isalpha`, `std::isalnum` are the "C" locale ones
  (`Char.isDigit`, `Char.isAlpha`, `Char.isAlphanum`, all ASCII only).
* `LexerImpl` is the record of the four data members; every member function
  takes the record and returns the updated one.
* Every `while` loop takes a `fuel : Nat` that bounds its number of iterations
  and returns `none` when the fuel runs out before the loop is left.
* `error` ends the process with `exit(1)`: a function that may call it returns
  a `Flow`, whose `exited` case carries the message, the line printed with it
  and the members at that moment.  `std::string::substr` throws
  `std::out_of_range` when its position is past the end: the `thrown` case.
* `current_line` and `Token::line` (both `int`) are natural numbers.  The
  embedding agrees with the code as long as the counter stays within
  `INT_MAX = 2^31 - 1`, that is on sources with at most `2^31 - 2` newlines;
  beyond, `current_line++` overflows the `int`.  A theorem that states the
  value of a line for arbitrary sources carries that bound as a hypothesis.
  `int start` holds a cursor, which is at most the length of the source: it is
  a natural number, exact on sources of at most `2^31 - 1` bytes.  The
  `size_t` subtraction in `scanString` does wrap on short inputs and is taken
  modulo `2^64`.
-/

namespace Qlex

/-- The enumeration `Token::Type` of `lexer.hpp`. -/
inductive TokenType where
  | LEFT_PAREN | RIGHT_PAREN
  | LEFT_BRACE | RIGHT_BRACE
  | COMMA | DOT | MINUS | PLUS
  | SEMICOLON | SLASH | STAR
  | BANG | BANG_EQUAL
  | EQUAL | EQUAL_EQUAL
  | GREATER | GREATER_EQUAL
  | LESS | LESS_EQUAL
  | IDENTIFIER | STRING | NUMBER
  | AND | CLASS | ELSE | FALSE
  | FUN | FOR | IF | NIL | OR
  | PRINT | RETURN | SUPER | THIS
  | TRUE | VAR | WHILE
  | END_OF_FILE
  deriving DecidableEq, Repr

/-- The record `Token` of `lexer.hpp`. -/
structure Token where
  type : TokenType
  lexeme : List Char
  line : Nat
  deriving DecidableEq, Repr

/-- The enumeration `LexingStatus` of `lexer.hpp`. -/
inductive LexingStatus where
  | SUCCESS
  | ERROR
  deriving DecidableEq, Repr

/-- The data members of `LexerImpl`. -/
structure LexerImpl where
  source_code : List Char
  current_position : Nat
  current_line : Nat
  tokens : List Token
  deriving DecidableEq, Repr

/-- How a member function that may end the process leaves: normally with a
value and the members, through `error` (message, printed line, members), or
through the `std::out_of_range` of `substr`. -/
inductive Flow (α : Type) where
  | ok (value : α) (st : LexerImpl)
  | exited (message : String) (line : Nat) (st : LexerImpl)
  | thrown (st : LexerImpl)
  deriving DecidableEq, Repr

/-- The sentinel `'\0'`. -/
def NUL : Char := Char.ofNat 0

/-- The double quote character. -/
def DQUOTE : Char := Char.ofNat 34

/-- The opening brace character. -/
def LBRACE : Char := Char.ofNat 123

/-- The closing brace character. -/
def RBRACE : Char := Char.ofNat 125

/-- The greatest value of an `int`, the type of `current_line` and of
`Token::line`. -/
def INT_MAX : Nat := 2 ^ 31 - 1

/-- The width of `std::size_t`. -/
def SIZE_MAX_PLUS_ONE : Nat := 2 ^ 64

/-- Subtraction of two `std::size_t` values, which wraps around. -/
def sizeSub (a b : Nat) : Nat :=
  (a % SIZE_MAX_PLUS_ONE + SIZE_MAX_PLUS_ONE - b % SIZE_MAX_PLUS_ONE) % SIZE_MAX_PLUS_ONE

/-- The call `std::string::substr(pos, count)`: `none` stands for the
`std::out_of_range` thrown when `pos > size()`, and otherwise the result is
the characters `[pos, pos + min(count, size() - pos))`. -/
def substr (str : List Char) (pos count : Nat) : Option (List Char) :=
  if pos > str.length then none
  else some ((str.drop pos).take (min count (str.length - pos)))

namespace LexerImpl

/-- The constructor `LexerImpl::LexerImpl`. -/
def new (source_code : List Char) : LexerImpl :=
  { source_code := source_code, current_position := 0, current_line := 1, tokens := [] }

/-- The member `LexerImpl::isAtEnd`. -/
def isAtEnd (s : LexerImpl) : Bool :=
  decide (s.current_position ≥ s.source_code.length)

/-- The member `LexerImpl::peek`. -/
def peek (s : LexerImpl) : Char :=
  if s.current_position < s.source_code.length then
    s.source_code.getD s.current_position NUL
  else NUL

/-- The member `LexerImpl::advance`: the character returned and the members
after the post-increment. -/
def advance (s : LexerImpl) : Char × LexerImpl :=
  if s.current_position < s.source_code.length then
    (s.source_code.getD s.current_position NUL,
      { s with current_position := s.current_position + 1 })
  else (NUL, s)

/-- The statement `current_line++` on the `int` counter, exact as long as the
result does not exceed `INT_MAX`. -/
def incrLine (s : LexerImpl) : LexerImpl :=
  { s with current_line := s.current_line + 1 }

/-- The member `LexerImpl::error`: prints the message with `current_line` and
calls `exit(1)`. -/
def error {α : Type} (s : LexerImpl) (message : String) : Flow α :=
  Flow.exited message s.current_line s

/-- The member `LexerImpl::addToken`; the default argument `lexeme = ""` of the
declaration is passed as `[]` by the callers that omit it. -/
def addToken (s : LexerImpl) (type : TokenType) (lexeme : List Char) : LexerImpl :=
  let token_lexeme := if lexeme.isEmpty then [s.peek] else lexeme
  { s with tokens := s.tokens ++ [{ type := type, lexeme := token_lexeme, line := s.current_line }] }

/-- The member `LexerImpl::skipComment`. -/
def skipComment : Nat → LexerImpl → Option LexerImpl
  | 0, _ => none
  | fuel + 1, s =>
    if s.peek ≠ '\n' ∧ ¬ s.isAtEnd then skipComment fuel s.advance.2
    else some s

/-- The member `LexerImpl::skipLine`. -/
def skipLine : Nat → LexerImpl → Option LexerImpl
  | 0, _ => none
  | fuel + 1, s =>
    if s.peek ≠ '\n' ∧ ¬ s.isAtEnd then skipLine fuel s.advance.2
    else some s

/-- The member `LexerImpl::skipMultilineComment`. -/
def skipMultilineComment : Nat → LexerImpl → Option LexerImpl
  | 0, _ => none
  | fuel + 1, s =>
    if s.peek = '*' ∧ s.peek = '/' then
      some s.advance.2.advance.2
    else
      let s1 := if s.peek = '\n' then s.incrLine else s
      skipMultilineComment fuel s1.advance.2

/-- The member `LexerImpl::skipWhitespace`. -/
def skipWhitespace : Nat → LexerImpl → Option LexerImpl
  | 0, _ => none
  | fuel + 1, s =>
    let c := s.peek
    if c = ' ' ∨ c = '\r' ∨ c = '\t' then
      skipWhitespace fuel s.advance.2
    else if c = '\n' then
      skipWhitespace fuel s.incrLine.advance.2
    else if c = '/' then
      if s.peek = '/' then
        (skipLine (fuel + 1) s).bind (skipWhitespace fuel)
      else if s.peek = '*' then
        (skipMultilineComment (fuel + 1) s).bind (skipWhitespace fuel)
      else some s
    else some s

/-- The loop of `LexerImpl::scanString`. -/
def scanStringLoop : Nat → LexerImpl → Option LexerImpl
  | 0, _ => none
  | fuel + 1, s =>
    if s.peek ≠ DQUOTE ∧ ¬ s.isAtEnd then
      let s1 := if s.peek = '\n' then s.incrLine else s
      scanStringLoop fuel s1.advance.2
    else some s

/-- The member `LexerImpl::scanString`. -/
def scanString (fuel : Nat) (s : LexerImpl) : Option (Flow (List Char)) :=
  let start := s.current_position
  match scanStringLoop fuel s with
  | none => none
  | some s1 =>
    if s1.isAtEnd then some (s1.error "Unterminated string")
    else
      let s2 := s1.advance.2
      let count := sizeSub (sizeSub s2.current_position start) 2
      match substr s2.source_code (start + 1) count with
      | none => some (Flow.thrown s2)
      | some lexeme => some (Flow.ok lexeme s2)

/-- The loop of `LexerImpl::scanNumber`. -/
def scanNumberLoop : Nat → LexerImpl → Option LexerImpl
  | 0, _ => none
  | fuel + 1, s =>
    if s.peek.isDigit then scanNumberLoop fuel s.advance.2
    else some s

/-- The member `LexerImpl::scanNumber`. -/
def scanNumber (fuel : Nat) (s : LexerImpl) : Option (Flow (List Char)) :=
  let start := s.current_position
  match scanNumberLoop fuel s with
  | none => none
  | some s1 =>
    match substr s1.source_code start (s1.current_position - start) with
    | none => some (Flow.thrown s1)
    | some lexeme => some (Flow.ok lexeme s1)

/-- The loop of `LexerImpl::scanIdentifier`. -/
def scanIdentifierLoop : Nat → LexerImpl → Option LexerImpl
  | 0, _ => none
  | fuel + 1, s =>
    if s.peek.isAlphanum then scanIdentifierLoop fuel s.advance.2
    else some s

/-- The member `LexerImpl::scanIdentifier`. -/
def scanIdentifier (fuel : Nat) (s : LexerImpl) : Option (Flow (List Char)) :=
  let start := s.current_position
  match scanIdentifierLoop fuel s with
  | none => none
  | some s1 =>
    match substr s1.source_code start (s1.current_position - start) with
    | none => some (Flow.thrown s1)
    | some lexeme => some (Flow.ok lexeme s1)

/-- The call `addToken(type, scan())` on the outcome of a literal scanner. -/
def addScanned (type : TokenType) : Option (Flow (List Char)) → Option (Flow Unit)
  | none => none
  | some (Flow.ok lexeme s) => some (Flow.ok () (s.addToken type lexeme))
  | some (Flow.exited message line s) => some (Flow.exited message line s)
  | some (Flow.thrown s) => some (Flow.thrown s)

/-- The `switch (c)` of `LexerImpl::tokenize`, entered after `advance` has
returned `c` and left the members `s`. -/
def dispatch (fuel : Nat) (c : Char) (s : LexerImpl) : Option (Flow Unit) :=
  if c = '(' then some (Flow.ok () (s.addToken TokenType.LEFT_PAREN []))
  else if c = ')' then some (Flow.ok () (s.addToken TokenType.RIGHT_PAREN []))
  else if c = LBRACE then some (Flow.ok () (s.addToken TokenType.LEFT_BRACE []))
  else if c = RBRACE then some (Flow.ok () (s.addToken TokenType.RIGHT_BRACE []))
  else if c = ',' then some (Flow.ok () (s.addToken TokenType.COMMA []))
  else if c = '.' then some (Flow.ok () (s.addToken TokenType.DOT []))
  else if c = '-' then some (Flow.ok () (s.addToken TokenType.MINUS []))
  else if c = '+' then some (Flow.ok () (s.addToken TokenType.PLUS []))
  else if c = ';' then some (Flow.ok () (s.addToken TokenType.SEMICOLON []))
  else if c = '*' then some (Flow.ok () (s.addToken TokenType.STAR []))
  else if c = '!' then
    some (Flow.ok () (s.addToken
      (if s.peek = '=' then TokenType.BANG_EQUAL else TokenType.BANG) []))
  else if c = '=' then
    some (Flow.ok () (s.addToken
      (if s.peek = '=' then TokenType.EQUAL_EQUAL else TokenType.EQUAL) []))
  else if c = '<' then
    some (Flow.ok () (s.addToken
      (if s.peek = '=' then TokenType.LESS_EQUAL else TokenType.LESS) []))
  else if c = '>' then
    some (Flow.ok () (s.addToken
      (if s.peek = '=' then TokenType.GREATER_EQUAL else TokenType.GREATER) []))
  else if c = '/' then
    if s.peek = '/' then (skipComment fuel s).map (Flow.ok ())
    else if s.peek = '*' then (skipMultilineComment fuel s).map (Flow.ok ())
    else some (Flow.ok () (s.addToken TokenType.SLASH []))
  else if c = ' ' ∨ c = '\r' ∨ c = '\t' then some (Flow.ok () s)
  else if c = '\n' then some (Flow.ok () s.incrLine)
  else if c = DQUOTE then addScanned TokenType.STRING (scanString fuel s)
  else if c.isDigit then addScanned TokenType.NUMBER (scanNumber fuel s)
  else if c.isAlpha then addScanned TokenType.IDENTIFIER (scanIdentifier fuel s)
  else some (s.error "Unexpected character")

/-- The body of the `while (!isAtEnd())` loop of `LexerImpl::tokenize`:
`skipWhitespace()`, `advance()`, then the `switch`. -/
def tokenizeBody (fuel : Nat) (s : LexerImpl) : Option (Flow Unit) :=
  match skipWhitespace fuel s with
  | none => none
  | some s1 => dispatch fuel s1.advance.1 s1.advance.2

/-- The member `LexerImpl::tokenize`. -/
def tokenize : Nat → LexerImpl → Option (Flow LexingStatus)
  | 0, _ => none
  | fuel + 1, s =>
    if ¬ s.isAtEnd then
      match tokenizeBody (fuel + 1) s with
      | none => none
      | some (Flow.ok _ s1) => tokenize fuel s1
      | some (Flow.exited message line s1) => some (Flow.exited message line s1)
      | some (Flow.thrown s1) => some (Flow.thrown s1)
    else some (Flow.ok LexingStatus.SUCCESS s)

end LexerImpl

/-- The public `Lexer`: its constructor followed by `Lexer::tokenize`, which
forwards to the `LexerImpl` it owns. -/
def Lexer.tokenize (fuel : Nat) (source_code : List Char) : Option (Flow LexingStatus) :=
  LexerImpl.tokenize fuel (LexerImpl.new source_code)

/-! ## Vocabulary of the specification -/

/-- The only token of a scan that returned `SUCCESS` with exactly one token. -/
def oneToken : Option (Flow LexingStatus) → Option Token
  | some (Flow.ok LexingStatus.SUCCESS st) =>
    match st.tokens with
    | [t] => some t
    | _ => none
  | _ => none

/-- The sixteen reserved words of the specification with their token kinds. -/
def reservedWords : List (List Char × TokenType) :=
  [ ("and".toList, TokenType.AND), ("class".toList, TokenType.CLASS),
    ("else".toList, TokenType.ELSE), ("false".toList, TokenType.FALSE),
    ("fun".toList, TokenType.FUN), ("for".toList, TokenType.FOR),
    ("if".toList, TokenType.IF), ("nil".toList, TokenType.NIL),
    ("or".toList, TokenType.OR), ("print".toList, TokenType.PRINT),
    ("return".toList, TokenType.RETURN), ("super".toList, TokenType.SUPER),
    ("this".toList, TokenType.THIS), ("true".toList, TokenType.TRUE),
    ("var".toList, TokenType.VAR), ("while".toList, TokenType.WHILE) ]

/-- The number of newline characters of a text. -/
def newlines (text : List Char) : Nat := text.count '\n'

/-- The line counter agrees with the text before the cursor: the members are
those of a scan of `src`, the cursor is within the source, and `current_line`
is one more than the number of newlines before the cursor. -/
def LineInv (src : List Char) (s : LexerImpl) : Prop :=
  s.source_code = src ∧ s.current_position ≤ src.length ∧
    s.current_line = 1 + newlines (src.take s.current_position)

/-- The members that `tokenize` can hold at the head of its loop when the
`Lexer` was built on `src`. -/
inductive Reachable (src : List Char) : LexerImpl → Prop where
  | init : Reachable src (LexerImpl.new src)
  | step (fuel : Nat) (s t : LexerImpl) :
      Reachable src s → s.isAtEnd = false →
      LexerImpl.tokenizeBody fuel s = some (Flow.ok () t) → Reachable src t

/-- The members `t` come after `s` in a scan of `src`: the line counter of `t`
agrees with the text before its cursor, no token was added and the cursor did
not move back. -/
def Extends (src : List Char) (s t : LexerImpl) : Prop :=
  LineInv src t ∧ t.tokens = s.tokens ∧ s.current_position ≤ t.current_position

/-- A string literal opened at or after offset `a` is closed just before offset
`b`: its opening quote is at `p`, its closing quote at `q = b - 1` is the first
quote after `p`. -/
def ClosesString (src : List Char) (a b : Nat) : Prop :=
  ∃ p q, a ≤ p ∧ p < q ∧ src[p]? = some DQUOTE ∧ src[q]? = some DQUOTE ∧
    (∀ i, p < i → i < q → src[i]? ≠ some DQUOTE) ∧ b = q + 1

/-- What one iteration of the loop of `tokenize` started on `s` leaves. When it
completes, the line counter agrees with the text before the cursor, the cursor
has moved forward, and at most one token was added, carrying the current line;
a `STRING` token is added right after the closing quote of its literal. When it
ends the process, no token was added and the printed line is the current one;
"Unterminated string" is only signalled at the end of the input. `substr`
never throws. -/
def IterationPost (src : List Char) (s : LexerImpl) : Flow Unit → Prop
  | Flow.ok _ t =>
    LineInv src t ∧ s.current_position < t.current_position ∧
      (t.tokens = s.tokens ∨
        ∃ tok, t.tokens = s.tokens ++ [tok] ∧ tok.line = t.current_line ∧
          (tok.type = TokenType.STRING →
            ClosesString src s.current_position t.current_position))
  | Flow.exited message line t =>
    LineInv src t ∧ line = t.current_line ∧ t.tokens = s.tokens ∧
      (message = "Unexpected character" ∨
        (message = "Unterminated string" ∧ t.current_position = src.length))
  | Flow.thrown _ => False

/-- The members a `Flow` carries, whichever way the function left. -/
def Flow.st {α : Type} : Flow α → LexerImpl
  | Flow.ok _ s => s
  | Flow.exited _ _ s => s
  | Flow.thrown s => s

/-- The four characters `skipWhitespace` discards one by one: space, tab,
carriage return and newline. -/
def isBlank (c : Char) : Bool :=
  decide (c = ' ' ∨ c = '\t' ∨ c = '\r' ∨ c = '\n')

/-- The cursor of `t` is that of `s` moved forward over the same source: it is
not smaller, and it is within the source when that of `s` was. -/
def Moves (s t : LexerImpl) : Prop :=
  t.source_code = s.source_code ∧ s.current_position ≤ t.current_position ∧
    (s.current_position ≤ s.source_code.length →
      t.current_position ≤ s.source_code.length)

/-- The character consumed last by the scan of `src` is not blank: the cursor of
`s` is past at least one character, and the one just before it is none of the
four blanks. -/
def LastNotBlank (src : List Char) (s : LexerImpl) : Prop :=
  0 < s.current_position ∧
    ∃ ch, src[s.current_position - 1]? = some ch ∧ isBlank ch = false

/-- The kinds a token added by `tokenize` can have: every kind but the end
marker and, because `skipWhitespace` takes every slash, `SLASH`. -/
def Emitted (tok : Token) : Prop :=
  tok.type ≠ TokenType.END_OF_FILE ∧ tok.type ≠ TokenType.SLASH

/-- The characters that begin a punctuation, operator or string token. -/
def tokenStarts : List Char :=
  ['(', ')', LBRACE, RBRACE, ',', '.', '-', '+', ';', '/', '*', '!', '=', '<', '>', DQUOTE]

/-! ## The cursor and the line counter through the scanner operations -/

open LexerImpl

theorem advance_fst (s : LexerImpl) : s.advance.1 = s.peek := by
  unfold advance peek; split <;> rfl

theorem advance_source (s : LexerImpl) : s.advance.2.source_code = s.source_code := by
  unfold advance; split <;> rfl

theorem advance_tokens (s : LexerImpl) : s.advance.2.tokens = s.tokens := by
  unfold advance; split <;> rfl

theorem advance_line (s : LexerImpl) : s.advance.2.current_line = s.current_line := by
  unfold advance; split <;> rfl

theorem advance_position (s : LexerImpl) :
    s.advance.2.current_position =
      if s.current_position < s.source_code.length then s.current_position + 1
      else s.current_position := by
  unfold advance; split <;> rfl

theorem advance_position_le (s : LexerImpl) :
    s.current_position ≤ s.advance.2.current_position := by
  rw [advance_position]; split <;> omega

theorem peek_in_range (s : LexerImpl) (h : s.current_position < s.source_code.length) :
    s.peek = s.source_code.getD s.current_position NUL := by
  unfold peek; rw [if_pos h]

theorem peek_at_end (s : LexerImpl) (h : ¬ s.current_position < s.source_code.length) :
    s.peek = NUL := by
  unfold peek; rw [if_neg h]

theorem in_range_of_peek_ne_NUL (s : LexerImpl) (h : s.peek ≠ NUL) :
    s.current_position < s.source_code.length := by
  by_contra hlt
  exact h (peek_at_end s hlt)

theorem isAtEnd_eq_false_iff (s : LexerImpl) :
    s.isAtEnd = false ↔ s.current_position < s.source_code.length := by
  unfold isAtEnd; simp

theorem isAtEnd_eq_true_iff (s : LexerImpl) :
    s.isAtEnd = true ↔ s.source_code.length ≤ s.current_position := by
  unfold isAtEnd; simp

theorem newlines_take_succ (src : List Char) (p : Nat) (h : p < src.length) :
    newlines (src.take (p + 1)) =
      newlines (src.take p) + if src.getD p NUL = '\n' then 1 else 0 := by
  unfold newlines
  rw [List.take_succ, List.count_append]
  simp [List.getD_eq_getElem?_getD, List.getElem?_eq_getElem h, List.count_singleton]

/-- Consuming one character, with `current_line++` first when it is a newline,
keeps the line counter in step with the text before the cursor. -/
theorem newlines_take_le (src : List Char) (n : Nat) :
    newlines (src.take n) ≤ newlines src :=
  List.Sublist.count_le (List.take_sublist n src) _

theorem LineInv_advance (src : List Char) (s : LexerImpl) (h : LineInv src s) :
    LineInv src (if s.peek = '\n' then s.incrLine else s).advance.2 := by
  obtain ⟨hsrc, hpos, hline⟩ := h
  by_cases hlt : s.current_position < s.source_code.length
  · have hp := peek_in_range s hlt
    have hn := newlines_take_succ s.source_code s.current_position hlt
    rw [← hp] at hn
    subst hsrc
    by_cases hnl : s.peek = '\n'
    · rw [if_pos hnl]
      rw [if_pos hnl] at hn
      refine ⟨?_, ?_, ?_⟩
      · rw [advance_source]; rfl
      · rw [advance_position]; simp only [incrLine]; rw [if_pos hlt]; omega
      · rw [advance_position, advance_line]; simp only [incrLine]; rw [if_pos hlt, hn]; omega
    · rw [if_neg hnl]
      rw [if_neg hnl] at hn
      refine ⟨?_, ?_, ?_⟩
      · rw [advance_source]
      · rw [advance_position, if_pos hlt]; omega
      · rw [advance_position, advance_line, if_pos hlt, hn]; omega
  · have hp := peek_at_end s hlt
    have hnl : s.peek ≠ '\n' := by rw [hp]; decide
    rw [if_neg hnl]
    have : s.advance.2 = s := by unfold advance; rw [if_neg hlt]
    rw [this]
    exact ⟨hsrc, hpos, hline⟩

theorem LineInv_advance_of_ne (src : List Char) (s : LexerImpl) (h : LineInv src s)
    (hne : s.peek ≠ '\n') : LineInv src s.advance.2 := by
  have := LineInv_advance src s h
  rwa [if_neg hne] at this

theorem LineInv_advance_newline (src : List Char) (s : LexerImpl) (h : LineInv src s)
    (hnl : s.peek = '\n') : LineInv src s.incrLine.advance.2 := by
  have := LineInv_advance src s h
  rwa [if_pos hnl] at this

theorem Extends_refl (src : List Char) (s : LexerImpl) (h : LineInv src s) :
    Extends src s s := ⟨h, rfl, le_refl _⟩

theorem Extends_trans (src : List Char) (s t u : LexerImpl) (h1 : Extends src s t)
    (h2 : Extends src t u) : Extends src s u :=
  ⟨h2.1, h2.2.1.trans h1.2.1, le_trans h1.2.2 h2.2.2⟩

theorem Extends_advance (src : List Char) (s : LexerImpl) (h : LineInv src s) :
    Extends src s (if s.peek = '\n' then s.incrLine else s).advance.2 := by
  refine ⟨LineInv_advance src s h, ?_, ?_⟩
  · rw [advance_tokens]; split <;> rfl
  · refine le_trans ?_ (advance_position_le _); split <;> exact le_refl _

theorem Extends_advance_of_ne (src : List Char) (s : LexerImpl) (h : LineInv src s)
    (hne : s.peek ≠ '\n') : Extends src s s.advance.2 := by
  have := Extends_advance src s h
  rwa [if_neg hne] at this

theorem Extends_advance_newline (src : List Char) (s : LexerImpl) (h : LineInv src s)
    (hnl : s.peek = '\n') : Extends src s s.incrLine.advance.2 := by
  have := Extends_advance src s h
  rwa [if_pos hnl] at this

theorem skipLine_extends (src : List Char) (fuel : Nat) (s t : LexerImpl)
    (h : LineInv src s) (hrun : skipLine fuel s = some t) : Extends src s t := by
  induction fuel generalizing s with
  | zero => simp [skipLine] at hrun
  | succ fuel ih =>
    rw [skipLine] at hrun
    split at hrun
    · rename_i hc
      have h1 := Extends_advance_of_ne src s h hc.1
      exact Extends_trans src s _ t h1 (ih _ h1.1 hrun)
    · cases hrun
      exact Extends_refl src _ h

theorem skipComment_extends (src : List Char) (fuel : Nat) (s t : LexerImpl)
    (h : LineInv src s) (hrun : skipComment fuel s = some t) : Extends src s t := by
  induction fuel generalizing s with
  | zero => simp [skipComment] at hrun
  | succ fuel ih =>
    rw [skipComment] at hrun
    split at hrun
    · rename_i hc
      have h1 := Extends_advance_of_ne src s h hc.1
      exact Extends_trans src s _ t h1 (ih _ h1.1 hrun)
    · cases hrun
      exact Extends_refl src _ h

/-- The exit test `peek() == '*' && peek() == '/'` compares one character
with two different ones and never holds: `skipMultilineComment` leaves its loop
with no amount of fuel. -/
theorem skipMultilineComment_none (fuel : Nat) (s : LexerImpl) :
    skipMultilineComment fuel s = none := by
  induction fuel generalizing s with
  | zero => rfl
  | succ fuel ih =>
    rw [skipMultilineComment]
    have hc : ¬ (s.peek = '*' ∧ s.peek = '/') := by
      rintro ⟨h1, h2⟩
      rw [h1] at h2
      exact absurd h2 (by decide)
    rw [if_neg hc]
    exact ih _

theorem isDigit_ne_newline (c : Char) (h : c.isDigit = true) : c ≠ '\n' := by
  rintro rfl; exact absurd h (by decide)

theorem isAlphanum_ne_newline (c : Char) (h : c.isAlphanum = true) : c ≠ '\n' := by
  rintro rfl; exact absurd h (by decide)

theorem scanNumberLoop_extends (src : List Char) (fuel : Nat) (s t : LexerImpl)
    (h : LineInv src s) (hrun : scanNumberLoop fuel s = some t) : Extends src s t := by
  induction fuel generalizing s with
  | zero => simp [scanNumberLoop] at hrun
  | succ fuel ih =>
    rw [scanNumberLoop] at hrun
    split at hrun
    · rename_i hc
      have h1 := Extends_advance_of_ne src s h (isDigit_ne_newline _ hc)
      exact Extends_trans src s _ t h1 (ih _ h1.1 hrun)
    · cases hrun
      exact Extends_refl src _ h

theorem scanIdentifierLoop_extends (src : List Char) (fuel : Nat) (s t : LexerImpl)
    (h : LineInv src s) (hrun : scanIdentifierLoop fuel s = some t) : Extends src s t := by
  induction fuel generalizing s with
  | zero => simp [scanIdentifierLoop] at hrun
  | succ fuel ih =>
    rw [scanIdentifierLoop] at hrun
    split at hrun
    · rename_i hc
      have h1 := Extends_advance_of_ne src s h (isAlphanum_ne_newline _ hc)
      exact Extends_trans src s _ t h1 (ih _ h1.1 hrun)
    · cases hrun
      exact Extends_refl src _ h

/-- When `skipWhitespace` returns, the line counter is in step and the next
character is neither whitespace, nor a newline, nor a slash. -/
theorem skipWhitespace_extends (src : List Char) (fuel : Nat) (s t : LexerImpl)
    (h : LineInv src s) (hrun : skipWhitespace fuel s = some t) :
    Extends src s t ∧
      ¬ (t.peek = ' ' ∨ t.peek = '\r' ∨ t.peek = '\t') ∧ t.peek ≠ '\n' ∧ t.peek ≠ '/' := by
  induction fuel generalizing s with
  | zero => simp [skipWhitespace] at hrun
  | succ fuel ih =>
    rw [skipWhitespace] at hrun
    by_cases hws : s.peek = ' ' ∨ s.peek = '\r' ∨ s.peek = '\t'
    · rw [if_pos hws] at hrun
      have hne : s.peek ≠ '\n' := by
        rcases hws with e | e | e <;> rw [e] <;> decide
      have h1 := Extends_advance_of_ne src s h hne
      have h2 := ih _ h1.1 hrun
      exact ⟨Extends_trans src s _ t h1 h2.1, h2.2⟩
    rw [if_neg hws] at hrun
    by_cases hnl : s.peek = '\n'
    · rw [if_pos hnl] at hrun
      have h1 := Extends_advance_newline src s h hnl
      have h2 := ih _ h1.1 hrun
      exact ⟨Extends_trans src s _ t h1 h2.1, h2.2⟩
    rw [if_neg hnl] at hrun
    by_cases hsl : s.peek = '/'
    · rw [if_pos hsl, if_pos hsl] at hrun
      cases hl : skipLine (fuel + 1) s with
      | none => rw [hl] at hrun; exact absurd hrun (by simp)
      | some u =>
        rw [hl] at hrun
        have h1 := skipLine_extends src _ s u h hl
        have h2 := ih _ h1.1 hrun
        exact ⟨Extends_trans src s _ t h1 h2.1, h2.2⟩
    rw [if_neg hsl] at hrun
    cases hrun
    exact ⟨Extends_refl src _ h, hws, hnl, hsl⟩

/-- The loop of `scanString` stops at the first double quote at or after the
cursor, or at the end of the input. -/
theorem scanStringLoop_extends (src : List Char) (fuel : Nat) (s t : LexerImpl)
    (h : LineInv src s) (hrun : scanStringLoop fuel s = some t) :
    Extends src s t ∧
      (∀ i, s.current_position ≤ i → i < t.current_position → src[i]? ≠ some DQUOTE) ∧
      (t.current_position < src.length → src[t.current_position]? = some DQUOTE) := by
  induction fuel generalizing s with
  | zero => simp [scanStringLoop] at hrun
  | succ fuel ih =>
    rw [scanStringLoop] at hrun
    by_cases hc : s.peek ≠ DQUOTE ∧ ¬ s.isAtEnd
    · rw [if_pos hc] at hrun
      simp only [] at hrun
      have h1 := Extends_advance src s h
      obtain ⟨h2, h3, h4⟩ := ih _ h1.1 hrun
      refine ⟨Extends_trans src s _ t h1 h2, ?_, h4⟩
      intro i hi1 hi2
      have hlt : s.current_position < s.source_code.length := by
        have := hc.2
        simpa [isAtEnd] using this
      by_cases hi : i = s.current_position
      · subst hi
        have hp := peek_in_range s hlt
        have hq := hc.1
        rw [hp, h.1, List.getD_eq_getElem?_getD] at hq
        intro he
        rw [he] at hq
        exact hq rfl
      · apply h3 i _ hi2
        have hpos : (if s.peek = '\n' then s.incrLine else s).advance.2.current_position
            = s.current_position + 1 := by
          split
          · rw [advance_position]; exact if_pos hlt
          · rw [advance_position]; exact if_pos hlt
        rw [hpos]
        omega
    · rw [if_neg hc] at hrun
      cases hrun
      refine ⟨Extends_refl src _ h, ?_, ?_⟩
      · intro i hi1 hi2; omega
      · intro hlt
        have hlt2 : t.current_position < t.source_code.length := by rw [h.1]; exact hlt
        have hq : t.peek = DQUOTE := by
          by_contra hq
          exact hc ⟨hq, by simp [isAtEnd]; exact hlt2⟩
        rw [peek_in_range t hlt2, h.1, List.getD_eq_getElem?_getD] at hq
        rw [List.getElem?_eq_getElem hlt] at hq ⊢
        simpa using hq

theorem LineInv_addToken (src : List Char) (s : LexerImpl) (ty : TokenType)
    (lexeme : List Char) (h : LineInv src s) : LineInv src (s.addToken ty lexeme) := h

theorem substr_isSome (str : List Char) (pos count : Nat) (h : pos ≤ str.length) :
    ∃ lexeme, substr str pos count = some lexeme := by
  unfold substr
  rw [if_neg (by omega)]
  exact ⟨_, rfl⟩

theorem scanNumber_spec (src : List Char) (fuel : Nat) (s : LexerImpl) (r : Flow (List Char))
    (h : LineInv src s) (hrun : scanNumber fuel s = some r) :
    ∃ lexeme t, r = Flow.ok lexeme t ∧ Extends src s t := by
  unfold scanNumber at hrun
  simp only [] at hrun
  cases hl : scanNumberLoop fuel s with
  | none => rw [hl] at hrun; exact absurd hrun (by simp)
  | some t =>
    rw [hl] at hrun
    have he := scanNumberLoop_extends src fuel s t h hl
    have hle : s.current_position ≤ t.source_code.length := by
      rw [he.1.1]; exact le_trans he.2.2 he.1.2.1
    obtain ⟨lexeme, hs⟩ := substr_isSome t.source_code s.current_position
      (t.current_position - s.current_position) hle
    simp only [hs] at hrun
    exact ⟨lexeme, t, (Option.some.inj hrun).symm, he⟩

theorem scanIdentifier_spec (src : List Char) (fuel : Nat) (s : LexerImpl)
    (r : Flow (List Char)) (h : LineInv src s) (hrun : scanIdentifier fuel s = some r) :
    ∃ lexeme t, r = Flow.ok lexeme t ∧ Extends src s t := by
  unfold scanIdentifier at hrun
  simp only [] at hrun
  cases hl : scanIdentifierLoop fuel s with
  | none => rw [hl] at hrun; exact absurd hrun (by simp)
  | some t =>
    rw [hl] at hrun
    have he := scanIdentifierLoop_extends src fuel s t h hl
    have hle : s.current_position ≤ t.source_code.length := by
      rw [he.1.1]; exact le_trans he.2.2 he.1.2.1
    obtain ⟨lexeme, hs⟩ := substr_isSome t.source_code s.current_position
      (t.current_position - s.current_position) hle
    simp only [hs] at hrun
    exact ⟨lexeme, t, (Option.some.inj hrun).symm, he⟩

/-- The two ways `scanString` leaves: "Unterminated string" at the end of the
input, or normally, right after the first double quote at or after the cursor.
Its `substr` never throws. -/
theorem scanString_spec (src : List Char) (fuel : Nat) (s : LexerImpl) (r : Flow (List Char))
    (h : LineInv src s) (hrun : scanString fuel s = some r) :
    (∃ t, r = Flow.exited "Unterminated string" t.current_line t ∧ Extends src s t ∧
        t.current_position = src.length) ∨
    (∃ lexeme t q, r = Flow.ok lexeme t ∧ Extends src s t ∧ s.current_position ≤ q ∧
        src[q]? = some DQUOTE ∧
        (∀ i, s.current_position ≤ i → i < q → src[i]? ≠ some DQUOTE) ∧
        t.current_position = q + 1) := by
  unfold scanString at hrun
  simp only [] at hrun
  cases hl : scanStringLoop fuel s with
  | none => rw [hl] at hrun; exact absurd hrun (by simp)
  | some u =>
    rw [hl] at hrun
    obtain ⟨he, hno, hq⟩ := scanStringLoop_extends src fuel s u h hl
    by_cases hend : u.isAtEnd = true
    · left
      simp only [hend, if_true] at hrun
      refine ⟨u, (Option.some.inj hrun).symm, he, ?_⟩
      have h1 := (isAtEnd_eq_true_iff u).1 hend
      have h2 := he.1.2.1
      rw [he.1.1] at h1
      omega
    · right
      simp only [hend] at hrun
      have hlt : u.current_position < u.source_code.length := by
        simpa [isAtEnd] using hend
      have hlt2 : u.current_position < src.length := by rw [← he.1.1]; exact hlt
      have hq2 := hq hlt2
      have hpne : u.peek ≠ '\n' := by
        rw [peek_in_range u hlt, he.1.1, List.getD_eq_getElem?_getD, hq2]
        decide
      have ha := Extends_advance_of_ne src u he.1 hpne
      have hpos : u.advance.2.current_position = u.current_position + 1 := by
        rw [advance_position]; exact if_pos hlt
      have hle : s.current_position + 1 ≤ u.advance.2.source_code.length := by
        rw [ha.1.1]
        have := he.2.2
        omega
      obtain ⟨lexeme, hs⟩ := substr_isSome u.advance.2.source_code (s.current_position + 1)
        (sizeSub (sizeSub u.advance.2.current_position s.current_position) 2) hle
      simp only [hs] at hrun
      exact ⟨lexeme, u.advance.2, u.current_position, (Option.some.inj hrun).symm,
        Extends_trans src s u _ he ha, he.2.2, hq2, hno, hpos⟩

/-! ## One iteration of the loop of `tokenize` -/

/-- The arms of the `switch` of `tokenize`, grouped by what they do. -/
theorem dispatch_cases (fuel : Nat) (c : Char) (s : LexerImpl) (r : Flow Unit)
    (h : dispatch fuel c s = some r) :
    (∃ ty, ty ≠ TokenType.STRING ∧ r = Flow.ok () (s.addToken ty [])) ∨
    (∃ t, skipComment fuel s = some t ∧ r = Flow.ok () t) ∨
    (c ≠ '\n' ∧ r = Flow.ok () s) ∨
    (c = '\n' ∧ r = Flow.ok () s.incrLine) ∨
    (c = DQUOTE ∧ addScanned TokenType.STRING (scanString fuel s) = some r) ∨
    (c.isDigit = true ∧ addScanned TokenType.NUMBER (scanNumber fuel s) = some r) ∨
    (c.isAlpha = true ∧ addScanned TokenType.IDENTIFIER (scanIdentifier fuel s) = some r) ∨
    r = s.error "Unexpected character" := by
  unfold dispatch at h
  iterate 10
    rw [ite_eq_iff] at h
    rcases h with ⟨-, h⟩ | ⟨-, h⟩
    · exact Or.inl ⟨_, by decide, (Option.some.inj h).symm⟩
  iterate 4
    rw [ite_eq_iff] at h
    rcases h with ⟨-, h⟩ | ⟨-, h⟩
    · left; split at h <;> exact ⟨_, by decide, (Option.some.inj h).symm⟩
  rw [ite_eq_iff] at h
  rcases h with ⟨-, h⟩ | ⟨-, h⟩
  · rw [ite_eq_iff] at h
    rcases h with ⟨-, h⟩ | ⟨-, h⟩
    · right; left
      cases hc : skipComment fuel s with
      | none => rw [hc] at h; exact absurd h (by simp)
      | some t => rw [hc] at h; exact ⟨t, rfl, (Option.some.inj h).symm⟩
    · rw [ite_eq_iff] at h
      rcases h with ⟨-, h⟩ | ⟨-, h⟩
      · rw [skipMultilineComment_none] at h; exact absurd h (by simp)
      · exact Or.inl ⟨_, by decide, (Option.some.inj h).symm⟩
  rw [ite_eq_iff] at h
  rcases h with ⟨hws, h⟩ | ⟨-, h⟩
  · right; right; left
    refine ⟨?_, (Option.some.inj h).symm⟩
    rcases hws with e | e | e <;> rw [e] <;> decide
  rw [ite_eq_iff] at h
  rcases h with ⟨hnl, h⟩ | ⟨-, h⟩
  · exact Or.inr (Or.inr (Or.inr (Or.inl ⟨hnl, (Option.some.inj h).symm⟩)))
  rw [ite_eq_iff] at h
  rcases h with ⟨hq, h⟩ | ⟨-, h⟩
  · exact Or.inr (Or.inr (Or.inr (Or.inr (Or.inl ⟨hq, h⟩))))
  rw [ite_eq_iff] at h
  rcases h with ⟨hd, h⟩ | ⟨-, h⟩
  · exact Or.inr (Or.inr (Or.inr (Or.inr (Or.inr (Or.inl ⟨hd, h⟩)))))
  rw [ite_eq_iff] at h
  rcases h with ⟨ha, h⟩ | ⟨-, h⟩
  · exact Or.inr (Or.inr (Or.inr (Or.inr (Or.inr (Or.inr (Or.inl ⟨ha, h⟩))))))
  · exact Or.inr (Or.inr (Or.inr (Or.inr (Or.inr (Or.inr (Or.inr (Option.some.inj h).symm))))))

theorem dispatch_NUL (fuel : Nat) (s : LexerImpl) :
    dispatch fuel NUL s = some (s.error "Unexpected character") := rfl

theorem IterationPost_error (src : List Char) (s t : LexerImpl) (h : Extends src s t) :
    IterationPost src s (t.error "Unexpected character") :=
  ⟨h.1, rfl, h.2.1, Or.inl rfl⟩

theorem IterationPost_of_extends (src : List Char) (s t : LexerImpl) (r : Flow Unit)
    (h : Extends src s t) (hp : IterationPost src t r) : IterationPost src s r := by
  cases r with
  | ok v u =>
    obtain ⟨h1, h2, h3⟩ := hp
    refine ⟨h1, lt_of_le_of_lt h.2.2 h2, ?_⟩
    rcases h3 with h3 | ⟨tok, h4, h5, h6⟩
    · exact Or.inl (h3.trans h.2.1)
    · refine Or.inr ⟨tok, by rw [h4, h.2.1], h5, fun hty => ?_⟩
      obtain ⟨p, q, hp1, hp2⟩ := h6 hty
      exact ⟨p, q, le_trans h.2.2 hp1, hp2⟩
  | exited message line u =>
    obtain ⟨h1, h2, h3, h4⟩ := hp
    exact ⟨h1, h2, h3.trans h.2.1, h4⟩
  | thrown u => exact hp

theorem addToken_tokens (s : LexerImpl) (ty : TokenType) (lexeme : List Char) :
    ∃ tok, (s.addToken ty lexeme).tokens = s.tokens ++ [tok] ∧ tok.type = ty ∧
      tok.line = (s.addToken ty lexeme).current_line :=
  ⟨_, rfl, rfl, rfl⟩

/-- The `switch` of `tokenize`, entered on a character that is not a newline,
establishes `IterationPost`. -/
theorem dispatch_post (src : List Char) (fuel : Nat) (s : LexerImpl) (r : Flow Unit)
    (h : LineInv src s) (hnl : s.peek ≠ '\n')
    (hd : dispatch fuel s.advance.1 s.advance.2 = some r) : IterationPost src s r := by
  have hadv := Extends_advance_of_ne src s h hnl
  by_cases hN : s.peek = NUL
  · rw [advance_fst, hN, dispatch_NUL] at hd
    cases hd
    exact IterationPost_error src s _ hadv
  have hlt := in_range_of_peek_ne_NUL s hN
  have hpos : s.advance.2.current_position = s.current_position + 1 := by
    rw [advance_position]; exact if_pos hlt
  rcases dispatch_cases fuel _ _ r hd with ⟨ty, hty, rfl⟩ | ⟨t, hc, rfl⟩ | ⟨-, rfl⟩ |
    ⟨hc, -⟩ | ⟨hq, hs⟩ | ⟨-, hs⟩ | ⟨-, hs⟩ | rfl
  · obtain ⟨tok, hk1, hk2, hk3⟩ := addToken_tokens s.advance.2 ty []
    refine ⟨LineInv_addToken src _ ty [] hadv.1, ?_, Or.inr ⟨tok, ?_, hk3, ?_⟩⟩
    · show s.current_position < s.advance.2.current_position
      omega
    · rw [hk1, hadv.2.1]
    · intro e; rw [hk2] at e; exact absurd e hty
  · have he := skipComment_extends src fuel _ t hadv.1 hc
    exact ⟨he.1, by have := he.2.2; omega, Or.inl (he.2.1.trans hadv.2.1)⟩
  · exact ⟨hadv.1, by omega, Or.inl hadv.2.1⟩
  · rw [advance_fst] at hc; exact absurd hc hnl
  · cases hr : scanString fuel s.advance.2 with
    | none => rw [hr] at hs; exact absurd hs (by simp [addScanned])
    | some r1 =>
      rw [hr] at hs
      rcases scanString_spec src fuel _ r1 hadv.1 hr with ⟨t, rfl, he, hend⟩ |
        ⟨lexeme, t, q, rfl, he, hq1, hq2, hq3, hq4⟩
      · simp only [addScanned] at hs
        cases hs
        exact ⟨he.1, rfl, he.2.1.trans hadv.2.1, Or.inr ⟨rfl, hend⟩⟩
      · simp only [addScanned] at hs
        cases hs
        obtain ⟨tok, hk1, -, hk3⟩ := addToken_tokens t TokenType.STRING lexeme
        refine ⟨LineInv_addToken src _ _ _ he.1, ?_, Or.inr ⟨tok, ?_, hk3, fun _ => ?_⟩⟩
        · show s.current_position < t.current_position
          omega
        · rw [hk1, he.2.1, hadv.2.1]
        · refine ⟨s.current_position, q, le_refl _, by omega, ?_, hq2, ?_, hq4⟩
          · rw [advance_fst, peek_in_range s hlt, h.1, List.getD_eq_getElem?_getD] at hq
            have hlt2 : s.current_position < src.length := by rw [← h.1]; exact hlt
            rw [List.getElem?_eq_getElem hlt2] at hq ⊢
            simpa using hq
          · intro i hi1 hi2
            exact hq3 i (by omega) hi2
  · cases hr : scanNumber fuel s.advance.2 with
    | none => rw [hr] at hs; exact absurd hs (by simp [addScanned])
    | some r1 =>
      rw [hr] at hs
      obtain ⟨lexeme, t, rfl, he⟩ := scanNumber_spec src fuel _ r1 hadv.1 hr
      simp only [addScanned] at hs
      cases hs
      obtain ⟨tok, hk1, hk2, hk3⟩ := addToken_tokens t TokenType.NUMBER lexeme
      refine ⟨LineInv_addToken src _ _ _ he.1, ?_, Or.inr ⟨tok, ?_, hk3, fun e => ?_⟩⟩
      · show s.current_position < t.current_position
        have := he.2.2
        omega
      · rw [hk1, he.2.1, hadv.2.1]
      · rw [hk2] at e; exact absurd e (by decide)
  · cases hr : scanIdentifier fuel s.advance.2 with
    | none => rw [hr] at hs; exact absurd hs (by simp [addScanned])
    | some r1 =>
      rw [hr] at hs
      obtain ⟨lexeme, t, rfl, he⟩ := scanIdentifier_spec src fuel _ r1 hadv.1 hr
      simp only [addScanned] at hs
      cases hs
      obtain ⟨tok, hk1, hk2, hk3⟩ := addToken_tokens t TokenType.IDENTIFIER lexeme
      refine ⟨LineInv_addToken src _ _ _ he.1, ?_, Or.inr ⟨tok, ?_, hk3, fun e => ?_⟩⟩
      · show s.current_position < t.current_position
        have := he.2.2
        omega
      · rw [hk1, he.2.1, hadv.2.1]
      · rw [hk2] at e; exact absurd e (by decide)
  · exact IterationPost_error src s _ hadv

/-- Every iteration of the loop of `tokenize` establishes `IterationPost`. -/
theorem tokenizeBody_post (src : List Char) (fuel : Nat) (s : LexerImpl) (r : Flow Unit)
    (h : LineInv src s) (hb : tokenizeBody fuel s = some r) : IterationPost src s r := by
  unfold tokenizeBody at hb
  cases hw : skipWhitespace fuel s with
  | none => rw [hw] at hb; exact absurd hb (by simp)
  | some t =>
    rw [hw] at hb
    obtain ⟨he, -, hnl, -⟩ := skipWhitespace_extends src fuel s t h hw
    exact IterationPost_of_extends src s t r he (dispatch_post src fuel t r he.1 hnl hb)

theorem LineInv_new (src : List Char) : LineInv src (LexerImpl.new src) :=
  ⟨rfl, Nat.zero_le _, rfl⟩

/-- At the head of the loop of `tokenize` the line counter is one more than the
number of newlines before the cursor. -/
theorem Reachable_LineInv (src : List Char) (s : LexerImpl) (h : Reachable src s) :
    LineInv src s := by
  induction h with
  | init => exact LineInv_new src
  | step fuel s t _ _ hb ih => exact (tokenizeBody_post src fuel s _ ih hb).1

/-- When `tokenize` ends with "Unterminated string", the printed line counts
every newline of the source. -/
theorem tokenize_unterminated_line (src : List Char) (fuel : Nat) (s t : LexerImpl)
    (line : Nat) (h : LineInv src s)
    (hrun : tokenize fuel s = some (Flow.exited "Unterminated string" line t)) :
    line = 1 + newlines src := by
  induction fuel generalizing s with
  | zero => simp [tokenize] at hrun
  | succ fuel ih =>
    rw [tokenize] at hrun
    split at hrun
    · cases hb : tokenizeBody (fuel + 1) s with
      | none => rw [hb] at hrun; exact absurd hrun (by simp)
      | some r =>
        rw [hb] at hrun
        have hp := tokenizeBody_post src _ s r h hb
        cases r with
        | ok v u => exact ih u hp.1 hrun
        | exited message line2 u =>
          simp only [Option.some.injEq, Flow.exited.injEq] at hrun
          obtain ⟨rfl, rfl, rfl⟩ := hrun
          obtain ⟨h1, h2, -, h4⟩ := hp
          rcases h4 with h4 | ⟨-, h4⟩
          · exact absurd h4 (by decide)
          · rw [h2, h1.2.2, h4, List.take_length]
        | thrown u => exact absurd hp id
    · exact absurd hrun (by simp)

theorem dispatch_DQUOTE (fuel : Nat) (s : LexerImpl) :
    dispatch fuel DQUOTE s = addScanned TokenType.STRING (scanString fuel s) := rfl

theorem newlines_cons (c : Char) (rest : List Char) :
    newlines (c :: rest) = (if c = '\n' then 1 else 0) + newlines rest := by
  unfold newlines
  rw [List.count_cons]
  by_cases h : c = '\n' <;> simp [h, Nat.add_comm]

/-- On a text without a double quote the loop of `scanString` runs to the end
of the input, counting its newlines. -/
theorem scanStringLoop_no_quote (rest : List Char) (hq : DQUOTE ∉ rest) (pre : List Char)
    (line : Nat) (toks : List Token) (fuel : Nat) (hf : rest.length < fuel) :
    scanStringLoop fuel
        { source_code := pre ++ rest, current_position := pre.length,
          current_line := line, tokens := toks } =
      some { source_code := pre ++ rest, current_position := pre.length + rest.length,
             current_line := line + newlines rest, tokens := toks } := by
  induction rest generalizing pre line fuel with
  | nil =>
    cases fuel with
    | zero => exact absurd hf (by simp)
    | succ fuel =>
      rw [scanStringLoop]
      simp [isAtEnd, newlines]
  | cons c rest ih =>
    cases fuel with
    | zero => exact absurd hf (by simp)
    | succ fuel =>
      have hc : c ≠ DQUOTE := fun e => hq (by rw [e]; exact List.mem_cons_self _ _)
      have hq2 : DQUOTE ∉ rest := fun e => hq (List.mem_cons_of_mem _ e)
      have hf2 : rest.length < fuel := by simpa using hf
      have hpeek : (LexerImpl.mk (pre ++ c :: rest) pre.length line toks).peek = c := by
        have hget : (pre ++ c :: rest)[pre.length]? = some c := by
          rw [List.getElem?_append_right (le_refl _)]
          simp
        simp [peek, List.getD_eq_getElem?_getD, hget]
      have hend : (LexerImpl.mk (pre ++ c :: rest) pre.length line toks).isAtEnd = false := by
        simp [isAtEnd]
      rw [scanStringLoop, hpeek, hend, if_pos ⟨hc, by simp⟩]
      have key := ih hq2 (pre ++ [c]) (line + if c = '\n' then 1 else 0) fuel hf2
      simp only [List.append_assoc, List.singleton_append, List.length_append,
        List.length_singleton] at key
      rw [newlines_cons]
      by_cases hnl : c = '\n'
      · simp only [hnl, if_true] at key ⊢
        simp only [advance, incrLine, List.length_append, List.length_cons]
        rw [if_pos (by omega)]
        simp only []
        rw [key]
        simp only [List.length_cons, Option.some.injEq, LexerImpl.mk.injEq, true_and, and_true]
        omega
      · simp only [hnl, if_false, Nat.add_zero, Nat.zero_add] at key ⊢
        simp only [advance, List.length_append, List.length_cons]
        rw [if_pos (by omega)]
        simp only []
        rw [key]
        simp only [List.length_cons, Option.some.injEq, LexerImpl.mk.injEq, true_and, and_true]
        omega

theorem skipWhitespace_DQUOTE (fuel : Nat) (s : LexerImpl) (h : s.peek = DQUOTE) :
    skipWhitespace (fuel + 1) s = some s := by
  rw [skipWhitespace, h]
  rfl


/-! ## The cursor through the scanner operations -/

theorem Moves_refl (s : LexerImpl) : Moves s s := ⟨rfl, le_refl _, fun h => h⟩

theorem Moves_trans (s t u : LexerImpl) (h1 : Moves s t) (h2 : Moves t u) : Moves s u := by
  obtain ⟨a1, a2, a3⟩ := h1
  obtain ⟨b1, b2, b3⟩ := h2
  refine ⟨b1.trans a1, le_trans a2 b2, fun h => ?_⟩
  rw [a1] at b3
  exact b3 (a3 h)

theorem Moves_advance (s : LexerImpl) : Moves s s.advance.2 := by
  refine ⟨advance_source s, advance_position_le s, fun h => ?_⟩
  rw [advance_position]
  split <;> omega

theorem Moves_incrLine (s : LexerImpl) : Moves s s.incrLine := ⟨rfl, le_refl _, fun h => h⟩

theorem Moves_addToken (s : LexerImpl) (ty : TokenType) (lexeme : List Char) :
    Moves s (s.addToken ty lexeme) := ⟨rfl, le_refl _, fun h => h⟩

theorem Moves_advance_cond (s : LexerImpl) :
    Moves s (if s.peek = '\n' then s.incrLine else s).advance.2 := by
  split
  · exact Moves_trans _ _ _ (Moves_incrLine s) (Moves_advance _)
  · exact Moves_advance s

theorem skipLine_moves (fuel : Nat) (s t : LexerImpl) (hrun : skipLine fuel s = some t) :
    Moves s t := by
  induction fuel generalizing s with
  | zero => simp [skipLine] at hrun
  | succ fuel ih =>
    rw [skipLine] at hrun
    split at hrun
    · exact Moves_trans _ _ _ (Moves_advance s) (ih _ hrun)
    · cases hrun
      exact Moves_refl _

theorem skipComment_moves (fuel : Nat) (s t : LexerImpl)
    (hrun : skipComment fuel s = some t) : Moves s t := by
  induction fuel generalizing s with
  | zero => simp [skipComment] at hrun
  | succ fuel ih =>
    rw [skipComment] at hrun
    split at hrun
    · exact Moves_trans _ _ _ (Moves_advance s) (ih _ hrun)
    · cases hrun
      exact Moves_refl _

theorem scanNumberLoop_moves (fuel : Nat) (s t : LexerImpl)
    (hrun : scanNumberLoop fuel s = some t) : Moves s t := by
  induction fuel generalizing s with
  | zero => simp [scanNumberLoop] at hrun
  | succ fuel ih =>
    rw [scanNumberLoop] at hrun
    split at hrun
    · exact Moves_trans _ _ _ (Moves_advance s) (ih _ hrun)
    · cases hrun
      exact Moves_refl _

theorem scanIdentifierLoop_moves (fuel : Nat) (s t : LexerImpl)
    (hrun : scanIdentifierLoop fuel s = some t) : Moves s t := by
  induction fuel generalizing s with
  | zero => simp [scanIdentifierLoop] at hrun
  | succ fuel ih =>
    rw [scanIdentifierLoop] at hrun
    split at hrun
    · exact Moves_trans _ _ _ (Moves_advance s) (ih _ hrun)
    · cases hrun
      exact Moves_refl _

theorem scanStringLoop_moves (fuel : Nat) (s t : LexerImpl)
    (hrun : scanStringLoop fuel s = some t) : Moves s t := by
  induction fuel generalizing s with
  | zero => simp [scanStringLoop] at hrun
  | succ fuel ih =>
    rw [scanStringLoop] at hrun
    split at hrun
    · exact Moves_trans _ _ _ (Moves_advance_cond s) (ih _ hrun)
    · cases hrun
      exact Moves_refl _

theorem skipWhitespace_moves (fuel : Nat) (s t : LexerImpl)
    (hrun : skipWhitespace fuel s = some t) : Moves s t := by
  induction fuel generalizing s with
  | zero => simp [skipWhitespace] at hrun
  | succ fuel ih =>
    rw [skipWhitespace] at hrun
    by_cases hws : s.peek = ' ' ∨ s.peek = '\r' ∨ s.peek = '\t'
    · rw [if_pos hws] at hrun
      exact Moves_trans _ _ _ (Moves_advance s) (ih _ hrun)
    rw [if_neg hws] at hrun
    by_cases hnl : s.peek = '\n'
    · rw [if_pos hnl] at hrun
      exact Moves_trans _ _ _ (Moves_trans _ _ _ (Moves_incrLine s) (Moves_advance _))
        (ih _ hrun)
    rw [if_neg hnl] at hrun
    by_cases hsl : s.peek = '/'
    · rw [if_pos hsl, if_pos hsl] at hrun
      cases hl : skipLine (fuel + 1) s with
      | none => rw [hl] at hrun; exact absurd hrun (by simp)
      | some u =>
        rw [hl] at hrun
        exact Moves_trans _ _ _ (skipLine_moves _ s u hl) (ih _ hrun)
    rw [if_neg hsl] at hrun
    cases hrun
    exact Moves_refl _

theorem scanNumber_moves (fuel : Nat) (s : LexerImpl) (r : Flow (List Char))
    (hrun : scanNumber fuel s = some r) : Moves s r.st := by
  unfold scanNumber at hrun
  simp only [] at hrun
  cases hl : scanNumberLoop fuel s with
  | none => rw [hl] at hrun; exact absurd hrun (by simp)
  | some t =>
    rw [hl] at hrun
    have hm := scanNumberLoop_moves fuel s t hl
    dsimp only at hrun
    split at hrun <;> (cases hrun; exact hm)

theorem scanIdentifier_moves (fuel : Nat) (s : LexerImpl) (r : Flow (List Char))
    (hrun : scanIdentifier fuel s = some r) : Moves s r.st := by
  unfold scanIdentifier at hrun
  simp only [] at hrun
  cases hl : scanIdentifierLoop fuel s with
  | none => rw [hl] at hrun; exact absurd hrun (by simp)
  | some t =>
    rw [hl] at hrun
    have hm := scanIdentifierLoop_moves fuel s t hl
    dsimp only at hrun
    split at hrun <;> (cases hrun; exact hm)

theorem scanString_moves (fuel : Nat) (s : LexerImpl) (r : Flow (List Char))
    (hrun : scanString fuel s = some r) : Moves s r.st := by
  unfold scanString at hrun
  simp only [] at hrun
  cases hl : scanStringLoop fuel s with
  | none => rw [hl] at hrun; exact absurd hrun (by simp)
  | some t =>
    rw [hl] at hrun
    have hm := scanStringLoop_moves fuel s t hl
    have hm2 := Moves_trans _ _ _ hm (Moves_advance t)
    dsimp only at hrun
    split at hrun
    · cases hrun; exact hm
    · split at hrun <;> (cases hrun; exact hm2)

theorem addScanned_moves (ty : TokenType) (s : LexerImpl) (o : Option (Flow (List Char)))
    (r : Flow Unit) (ho : ∀ r1, o = some r1 → Moves s r1.st)
    (h : addScanned ty o = some r) : Moves s r.st := by
  cases o with
  | none => exact absurd h (by simp [addScanned])
  | some r1 =>
    have hm := ho r1 rfl
    cases r1 with
    | ok lexeme t =>
      simp only [addScanned] at h
      cases h
      exact hm
    | exited message line t =>
      simp only [addScanned] at h
      cases h
      exact hm
    | thrown t =>
      simp only [addScanned] at h
      cases h
      exact hm

theorem dispatch_moves (fuel : Nat) (c : Char) (s : LexerImpl) (r : Flow Unit)
    (h : dispatch fuel c s = some r) : Moves s r.st := by
  rcases dispatch_cases fuel c s r h with ⟨ty, -, rfl⟩ | ⟨t, hc, rfl⟩ | ⟨-, rfl⟩ |
    ⟨-, rfl⟩ | ⟨-, hs⟩ | ⟨-, hs⟩ | ⟨-, hs⟩ | rfl
  · exact Moves_addToken s ty []
  · exact skipComment_moves fuel s t hc
  · exact Moves_refl s
  · exact Moves_incrLine s
  · exact addScanned_moves _ s _ r (fun r1 h1 => scanString_moves fuel s r1 h1) hs
  · exact addScanned_moves _ s _ r (fun r1 h1 => scanNumber_moves fuel s r1 h1) hs
  · exact addScanned_moves _ s _ r (fun r1 h1 => scanIdentifier_moves fuel s r1 h1) hs
  · exact Moves_refl s

theorem tokenizeBody_moves (fuel : Nat) (s : LexerImpl) (r : Flow Unit)
    (h : tokenizeBody fuel s = some r) : Moves s r.st := by
  unfold tokenizeBody at h
  cases hw : skipWhitespace fuel s with
  | none => rw [hw] at h; exact absurd h (by simp)
  | some t =>
    rw [hw] at h
    exact Moves_trans _ _ _ (skipWhitespace_moves fuel s t hw)
      (Moves_trans _ _ _ (Moves_advance t) (dispatch_moves fuel _ _ r h))

/-! ## The arms of the `switch` that can be entered -/

theorem isBlank_eq_false_iff (c : Char) :
    isBlank c = false ↔ ¬ (c = ' ' ∨ c = '\r' ∨ c = '\t') ∧ c ≠ '\n' := by
  unfold isBlank
  simp only [decide_eq_false_iff_not]
  tauto

/-- The arms of the `switch` of `tokenize` that can be entered after
`skipWhitespace`, that is on a character that is neither blank nor a slash. -/
theorem dispatch_arms (fuel : Nat) (c : Char) (s : LexerImpl) (r : Flow Unit)
    (hsl : c ≠ '/') (hb : isBlank c = false) (h : dispatch fuel c s = some r) :
    (∃ ty, ty ≠ TokenType.END_OF_FILE ∧ ty ≠ TokenType.SLASH ∧
      r = Flow.ok () (s.addToken ty [])) ∨
    (c = DQUOTE ∧ addScanned TokenType.STRING (scanString fuel s) = some r) ∨
    (c.isDigit = true ∧ addScanned TokenType.NUMBER (scanNumber fuel s) = some r) ∨
    (c.isAlpha = true ∧ addScanned TokenType.IDENTIFIER (scanIdentifier fuel s) = some r) ∨
    r = s.error "Unexpected character" := by
  obtain ⟨hws, hnl⟩ := (isBlank_eq_false_iff c).1 hb
  unfold dispatch at h
  iterate 10
    rw [ite_eq_iff] at h
    rcases h with ⟨-, h⟩ | ⟨-, h⟩
    · exact Or.inl ⟨_, by decide, by decide, (Option.some.inj h).symm⟩
  iterate 4
    rw [ite_eq_iff] at h
    rcases h with ⟨-, h⟩ | ⟨-, h⟩
    · left; split at h <;> exact ⟨_, by decide, by decide, (Option.some.inj h).symm⟩
  rw [if_neg hsl, if_neg hws, if_neg hnl] at h
  rw [ite_eq_iff] at h
  rcases h with ⟨hq, h⟩ | ⟨-, h⟩
  · exact Or.inr (Or.inl ⟨hq, h⟩)
  rw [ite_eq_iff] at h
  rcases h with ⟨hd, h⟩ | ⟨-, h⟩
  · exact Or.inr (Or.inr (Or.inl ⟨hd, h⟩))
  rw [ite_eq_iff] at h
  rcases h with ⟨ha, h⟩ | ⟨-, h⟩
  · exact Or.inr (Or.inr (Or.inr (Or.inl ⟨ha, h⟩)))
  · exact Or.inr (Or.inr (Or.inr (Or.inr (Option.some.inj h).symm)))

/-- When `skipWhitespace` returns, the next character is neither blank nor a
slash, whatever the members it started on. -/
theorem skipWhitespace_stops (fuel : Nat) (s t : LexerImpl)
    (hrun : skipWhitespace fuel s = some t) : isBlank t.peek = false ∧ t.peek ≠ '/' := by
  induction fuel generalizing s with
  | zero => simp [skipWhitespace] at hrun
  | succ fuel ih =>
    rw [skipWhitespace] at hrun
    by_cases hws : s.peek = ' ' ∨ s.peek = '\r' ∨ s.peek = '\t'
    · rw [if_pos hws] at hrun
      exact ih _ hrun
    rw [if_neg hws] at hrun
    by_cases hnl : s.peek = '\n'
    · rw [if_pos hnl] at hrun
      exact ih _ hrun
    rw [if_neg hnl] at hrun
    by_cases hsl : s.peek = '/'
    · rw [if_pos hsl, if_pos hsl] at hrun
      cases hl : skipLine (fuel + 1) s with
      | none => rw [hl] at hrun; exact absurd hrun (by simp)
      | some u =>
        rw [hl] at hrun
        exact ih _ hrun
    rw [if_neg hsl] at hrun
    cases hrun
    exact ⟨(isBlank_eq_false_iff _).2 ⟨hws, hnl⟩, hsl⟩

theorem dispatch_isSome (fuel : Nat) (c : Char) (s : LexerImpl) (hsl : c ≠ '/')
    (h1 : (scanString fuel s).isSome = true) (h2 : (scanNumber fuel s).isSome = true)
    (h3 : (scanIdentifier fuel s).isSome = true) : (dispatch fuel c s).isSome = true := by
  have hadd : ∀ ty o, Option.isSome o = true → (addScanned ty o).isSome = true := by
    intro ty o ho
    cases o with
    | none => exact absurd ho (by simp)
    | some r1 => cases r1 <;> rfl
  unfold dispatch
  iterate 14
    rw [apply_ite Option.isSome, ite_eq_iff']
    refine ⟨fun _ => rfl, fun _ => ?_⟩
  rw [if_neg hsl]
  iterate 2
    rw [apply_ite Option.isSome, ite_eq_iff']
    refine ⟨fun _ => rfl, fun _ => ?_⟩
  rw [apply_ite Option.isSome, ite_eq_iff']
  refine ⟨fun _ => hadd _ _ h1, fun _ => ?_⟩
  rw [apply_ite Option.isSome, ite_eq_iff']
  refine ⟨fun _ => hadd _ _ h2, fun _ => ?_⟩
  rw [apply_ite Option.isSome, ite_eq_iff']
  exact ⟨fun _ => hadd _ _ h3, fun _ => rfl⟩

/-! ## Fuel that is enough -/

theorem advance_remaining (s : LexerImpl) (fuel : Nat)
    (hlt : s.current_position < s.source_code.length)
    (h : s.source_code.length - s.current_position < fuel + 1) :
    s.advance.2.source_code.length - s.advance.2.current_position < fuel := by
  rw [advance_source, advance_position, if_pos hlt]
  omega

theorem NUL_not_isDigit : NUL.isDigit = false := by decide

theorem NUL_not_isAlphanum : NUL.isAlphanum = false := by decide

theorem skipLine_total (fuel : Nat) (s : LexerImpl)
    (h : s.source_code.length - s.current_position < fuel) :
    ∃ t, skipLine fuel s = some t := by
  induction fuel generalizing s with
  | zero => exact absurd h (Nat.not_lt_zero _)
  | succ fuel ih =>
    rw [skipLine]
    split
    · rename_i hc
      have hlt : s.current_position < s.source_code.length := by
        have := hc.2
        simpa [isAtEnd] using this
      exact ih _ (advance_remaining s fuel hlt h)
    · exact ⟨s, rfl⟩

theorem skipComment_total (fuel : Nat) (s : LexerImpl)
    (h : s.source_code.length - s.current_position < fuel) :
    ∃ t, skipComment fuel s = some t := by
  induction fuel generalizing s with
  | zero => exact absurd h (Nat.not_lt_zero _)
  | succ fuel ih =>
    rw [skipComment]
    split
    · rename_i hc
      have hlt : s.current_position < s.source_code.length := by
        have := hc.2
        simpa [isAtEnd] using this
      exact ih _ (advance_remaining s fuel hlt h)
    · exact ⟨s, rfl⟩

theorem scanStringLoop_total (fuel : Nat) (s : LexerImpl)
    (h : s.source_code.length - s.current_position < fuel) :
    ∃ t, scanStringLoop fuel s = some t := by
  induction fuel generalizing s with
  | zero => exact absurd h (Nat.not_lt_zero _)
  | succ fuel ih =>
    rw [scanStringLoop]
    split
    · rename_i hc
      have hlt : s.current_position < s.source_code.length := by
        have := hc.2
        simpa [isAtEnd] using this
      apply ih
      split
      · exact advance_remaining s.incrLine fuel hlt h
      · exact advance_remaining s fuel hlt h
    · exact ⟨s, rfl⟩

theorem scanNumberLoop_total (fuel : Nat) (s : LexerImpl)
    (h : s.source_code.length - s.current_position < fuel) :
    ∃ t, scanNumberLoop fuel s = some t := by
  induction fuel generalizing s with
  | zero => exact absurd h (Nat.not_lt_zero _)
  | succ fuel ih =>
    rw [scanNumberLoop]
    split
    · rename_i hc
      have hlt : s.current_position < s.source_code.length := by
        apply in_range_of_peek_ne_NUL
        intro e
        rw [e, NUL_not_isDigit] at hc
        exact absurd hc (by simp)
      exact ih _ (advance_remaining s fuel hlt h)
    · exact ⟨s, rfl⟩

theorem scanIdentifierLoop_total (fuel : Nat) (s : LexerImpl)
    (h : s.source_code.length - s.current_position < fuel) :
    ∃ t, scanIdentifierLoop fuel s = some t := by
  induction fuel generalizing s with
  | zero => exact absurd h (Nat.not_lt_zero _)
  | succ fuel ih =>
    rw [scanIdentifierLoop]
    split
    · rename_i hc
      have hlt : s.current_position < s.source_code.length := by
        apply in_range_of_peek_ne_NUL
        intro e
        rw [e, NUL_not_isAlphanum] at hc
        exact absurd hc (by simp)
      exact ih _ (advance_remaining s fuel hlt h)
    · exact ⟨s, rfl⟩

theorem Moves_remaining (s t : LexerImpl) (h : Moves s t) :
    t.source_code.length - t.current_position ≤
      s.source_code.length - s.current_position := by
  obtain ⟨h1, h2, -⟩ := h
  rw [h1]
  omega

theorem skipWhitespace_total (fuel : Nat) (s : LexerImpl)
    (h : s.source_code.length - s.current_position < fuel) :
    ∃ t, skipWhitespace fuel s = some t := by
  induction fuel generalizing s with
  | zero => exact absurd h (Nat.not_lt_zero _)
  | succ fuel ih =>
    have hrange : s.peek ≠ NUL → s.current_position < s.source_code.length :=
      in_range_of_peek_ne_NUL s
    rw [skipWhitespace]
    by_cases hws : s.peek = ' ' ∨ s.peek = '\r' ∨ s.peek = '\t'
    · rw [if_pos hws]
      have hlt := hrange (by rcases hws with e | e | e <;> rw [e] <;> decide)
      exact ih _ (advance_remaining s fuel hlt h)
    rw [if_neg hws]
    by_cases hnl : s.peek = '\n'
    · rw [if_pos hnl]
      have hlt := hrange (by rw [hnl]; decide)
      exact ih _ (advance_remaining s.incrLine fuel hlt h)
    rw [if_neg hnl]
    by_cases hsl : s.peek = '/'
    · rw [if_pos hsl, if_pos hsl]
      have hlt := hrange (by rw [hsl]; decide)
      have hend : ¬ s.isAtEnd = true := by simp [isAtEnd]; exact hlt
      have hstep : skipLine (fuel + 1) s = skipLine fuel s.advance.2 := by
        rw [skipLine, if_pos ⟨hnl, hend⟩]
      obtain ⟨u, hu⟩ := skipLine_total fuel s.advance.2 (advance_remaining s fuel hlt h)
      rw [hstep, hu]
      have hm := Moves_remaining _ _ (skipLine_moves fuel _ u hu)
      have := advance_remaining s fuel hlt h
      exact ih u (by omega)
    rw [if_neg hsl]
    exact ⟨s, rfl⟩

theorem scanString_total (fuel : Nat) (s : LexerImpl)
    (h : s.source_code.length - s.current_position < fuel) :
    (scanString fuel s).isSome = true := by
  obtain ⟨t, ht⟩ := scanStringLoop_total fuel s h
  unfold scanString
  rw [ht]
  dsimp only
  split
  · rfl
  · split <;> rfl

theorem scanNumber_total (fuel : Nat) (s : LexerImpl)
    (h : s.source_code.length - s.current_position < fuel) :
    (scanNumber fuel s).isSome = true := by
  obtain ⟨t, ht⟩ := scanNumberLoop_total fuel s h
  unfold scanNumber
  rw [ht]
  dsimp only
  split <;> rfl

theorem scanIdentifier_total (fuel : Nat) (s : LexerImpl)
    (h : s.source_code.length - s.current_position < fuel) :
    (scanIdentifier fuel s).isSome = true := by
  obtain ⟨t, ht⟩ := scanIdentifierLoop_total fuel s h
  unfold scanIdentifier
  rw [ht]
  dsimp only
  split <;> rfl

/-- With more fuel than characters left, an iteration of the loop of `tokenize`
comes to an end. -/
theorem tokenizeBody_total (fuel : Nat) (s : LexerImpl)
    (h : s.source_code.length - s.current_position < fuel) :
    ∃ r, tokenizeBody fuel s = some r := by
  obtain ⟨t, ht⟩ := skipWhitespace_total fuel s h
  have hm := Moves_remaining _ _
    (Moves_trans _ _ _ (skipWhitespace_moves fuel s t ht) (Moves_advance t))
  have hlt : t.advance.2.source_code.length - t.advance.2.current_position < fuel := by
    omega
  have hsl : t.advance.1 ≠ '/' := by
    rw [advance_fst]; exact (skipWhitespace_stops fuel s t ht).2
  have hd := dispatch_isSome fuel t.advance.1 t.advance.2 hsl
    (scanString_total fuel _ hlt) (scanNumber_total fuel _ hlt)
    (scanIdentifier_total fuel _ hlt)
  unfold tokenizeBody
  rw [ht]
  exact Option.isSome_iff_exists.1 hd

/-- An iteration of the loop of `tokenize` that does not end the process moves
the cursor strictly forward, whatever the members it started on. -/
theorem tokenizeBody_advances (fuel : Nat) (s t : LexerImpl)
    (h : tokenizeBody fuel s = some (Flow.ok () t)) :
    s.current_position < t.current_position := by
  unfold tokenizeBody at h
  cases hw : skipWhitespace fuel s with
  | none => rw [hw] at h; exact absurd h (by simp)
  | some u =>
    rw [hw] at h
    dsimp only at h
    have h1 := (skipWhitespace_moves fuel s u hw).2.1
    have h2 := (dispatch_moves fuel _ _ _ h).2.1
    by_cases hN : u.peek = NUL
    · rw [advance_fst, hN, dispatch_NUL] at h
      exact absurd h (by simp [error])
    · have hlt := in_range_of_peek_ne_NUL u hN
      have h3 : u.advance.2.current_position = u.current_position + 1 := by
        rw [advance_position]; exact if_pos hlt
      have h4 : (Flow.ok () t).st = t := rfl
      rw [h4] at h2
      omega

/-! ## Where an iteration stops and the kinds of the tokens it adds -/

theorem peek_getElem (s : LexerImpl) (h : s.current_position < s.source_code.length) :
    s.source_code[s.current_position]? = some s.peek := by
  rw [peek_in_range s h, List.getD_eq_getElem?_getD, List.getElem?_eq_getElem h]
  rfl

theorem isDigit_not_blank (c : Char) (h : c.isDigit = true) : isBlank c = false := by
  rw [isBlank_eq_false_iff]
  refine ⟨?_, ?_⟩
  · rintro (rfl | rfl | rfl) <;> exact absurd h (by decide)
  · rintro rfl; exact absurd h (by decide)

theorem isAlphanum_not_blank (c : Char) (h : c.isAlphanum = true) : isBlank c = false := by
  rw [isBlank_eq_false_iff]
  refine ⟨?_, ?_⟩
  · rintro (rfl | rfl | rfl) <;> exact absurd h (by decide)
  · rintro rfl; exact absurd h (by decide)

theorem LastNotBlank_advance (s : LexerImpl)
    (hlt : s.current_position < s.source_code.length) (hb : isBlank s.peek = false) :
    LastNotBlank s.source_code s.advance.2 := by
  have hpos : s.advance.2.current_position = s.current_position + 1 := by
    rw [advance_position]; exact if_pos hlt
  refine ⟨by omega, s.peek, ?_, hb⟩
  rw [hpos, Nat.add_sub_cancel]
  exact peek_getElem s hlt

theorem scanNumberLoop_last (fuel : Nat) (s t : LexerImpl)
    (hs : LastNotBlank s.source_code s) (hrun : scanNumberLoop fuel s = some t) :
    LastNotBlank s.source_code t := by
  induction fuel generalizing s with
  | zero => simp [scanNumberLoop] at hrun
  | succ fuel ih =>
    rw [scanNumberLoop] at hrun
    split at hrun
    · rename_i hc
      have hlt : s.current_position < s.source_code.length := by
        apply in_range_of_peek_ne_NUL
        intro e
        rw [e, NUL_not_isDigit] at hc
        exact absurd hc (by simp)
      have h1 := LastNotBlank_advance s hlt (isDigit_not_blank _ hc)
      have h2 := ih s.advance.2 (by rw [advance_source]; exact h1) hrun
      rwa [advance_source] at h2
    · cases hrun
      exact hs

theorem scanIdentifierLoop_last (fuel : Nat) (s t : LexerImpl)
    (hs : LastNotBlank s.source_code s) (hrun : scanIdentifierLoop fuel s = some t) :
    LastNotBlank s.source_code t := by
  induction fuel generalizing s with
  | zero => simp [scanIdentifierLoop] at hrun
  | succ fuel ih =>
    rw [scanIdentifierLoop] at hrun
    split at hrun
    · rename_i hc
      have hlt : s.current_position < s.source_code.length := by
        apply in_range_of_peek_ne_NUL
        intro e
        rw [e, NUL_not_isAlphanum] at hc
        exact absurd hc (by simp)
      have h1 := LastNotBlank_advance s hlt (isAlphanum_not_blank _ hc)
      have h2 := ih s.advance.2 (by rw [advance_source]; exact h1) hrun
      rwa [advance_source] at h2
    · cases hrun
      exact hs

theorem scanNumber_end (src : List Char) (fuel : Nat) (s t : LexerImpl) (lexeme : List Char)
    (h : LineInv src s) (hs : LastNotBlank src s)
    (hrun : scanNumber fuel s = some (Flow.ok lexeme t)) :
    LastNotBlank src t ∧ t.tokens = s.tokens := by
  obtain ⟨lexeme2, t2, he, hext⟩ := scanNumber_spec src fuel s _ h hrun
  cases he
  refine ⟨?_, hext.2.1⟩
  unfold scanNumber at hrun
  cases hl : scanNumberLoop fuel s with
  | none => rw [hl] at hrun; exact absurd hrun (by simp)
  | some u =>
    rw [hl] at hrun
    dsimp only at hrun
    have hu : u = t := by
      split at hrun
      · exact absurd hrun (by simp)
      · cases hrun; rfl
    subst hu
    have := scanNumberLoop_last fuel s u (by rw [h.1]; exact hs) hl
    rwa [h.1] at this

theorem scanIdentifier_end (src : List Char) (fuel : Nat) (s t : LexerImpl)
    (lexeme : List Char) (h : LineInv src s) (hs : LastNotBlank src s)
    (hrun : scanIdentifier fuel s = some (Flow.ok lexeme t)) :
    LastNotBlank src t ∧ t.tokens = s.tokens := by
  obtain ⟨lexeme2, t2, he, hext⟩ := scanIdentifier_spec src fuel s _ h hrun
  cases he
  refine ⟨?_, hext.2.1⟩
  unfold scanIdentifier at hrun
  cases hl : scanIdentifierLoop fuel s with
  | none => rw [hl] at hrun; exact absurd hrun (by simp)
  | some u =>
    rw [hl] at hrun
    dsimp only at hrun
    have hu : u = t := by
      split at hrun
      · exact absurd hrun (by simp)
      · cases hrun; rfl
    subst hu
    have := scanIdentifierLoop_last fuel s u (by rw [h.1]; exact hs) hl
    rwa [h.1] at this

theorem scanString_end (src : List Char) (fuel : Nat) (s t : LexerImpl) (lexeme : List Char)
    (h : LineInv src s) (hrun : scanString fuel s = some (Flow.ok lexeme t)) :
    LastNotBlank src t ∧ t.tokens = s.tokens := by
  rcases scanString_spec src fuel s _ h hrun with ⟨u, he, -⟩ |
    ⟨lexeme2, u, q, he, hext, -, hq, -, hpos⟩
  · exact absurd he (by simp)
  · cases he
    refine ⟨⟨by omega, DQUOTE, ?_, by decide⟩, hext.2.1⟩
    rw [hpos, Nat.add_sub_cancel]
    exact hq

theorem mem_addToken (s : LexerImpl) (ty : TokenType) (lexeme : List Char) (tok : Token)
    (h : tok ∈ (s.addToken ty lexeme).tokens) : tok ∈ s.tokens ∨ tok.type = ty := by
  obtain ⟨tok2, h1, h2, -⟩ := addToken_tokens s ty lexeme
  rw [h1, List.mem_append, List.mem_singleton] at h
  rcases h with h | h
  · exact Or.inl h
  · right; rw [h]; exact h2

/-- An iteration of the loop of `tokenize` that does not end the process stops
right after a character that is not blank, and a token it adds has neither the
kind `END_OF_FILE` nor the kind `SLASH`. -/
theorem tokenizeBody_end (src : List Char) (fuel : Nat) (s t : LexerImpl)
    (h : LineInv src s) (hb : tokenizeBody fuel s = some (Flow.ok () t)) :
    LastNotBlank src t ∧ ∀ tok ∈ t.tokens, tok ∈ s.tokens ∨ Emitted tok := by
  unfold tokenizeBody at hb
  cases hw : skipWhitespace fuel s with
  | none => rw [hw] at hb; exact absurd hb (by simp)
  | some u =>
    rw [hw] at hb
    dsimp only at hb
    obtain ⟨hblank, hsl⟩ := skipWhitespace_stops fuel s u hw
    obtain ⟨hext, -, hnl, -⟩ := skipWhitespace_extends src fuel s u h hw
    have hN : u.peek ≠ NUL := by
      intro hN
      rw [advance_fst, hN, dispatch_NUL] at hb
      exact absurd hb (by simp [error])
    have hlt := in_range_of_peek_ne_NUL u hN
    have hadv := Extends_advance_of_ne src u hext.1 hnl
    have hlast : LastNotBlank src u.advance.2 := by
      have := LastNotBlank_advance u hlt hblank
      rwa [hext.1.1] at this
    have htoks : u.advance.2.tokens = s.tokens := hadv.2.1.trans hext.2.1
    rw [advance_fst] at hb
    rcases dispatch_arms fuel _ _ _ hsl hblank hb with ⟨ty, h1, h2, he⟩ | ⟨-, hs⟩ |
      ⟨-, hs⟩ | ⟨-, hs⟩ | he
    · cases he
      refine ⟨hlast, fun tok hm => ?_⟩
      rcases mem_addToken _ _ _ tok hm with hm | hm
      · rw [htoks] at hm; exact Or.inl hm
      · right; unfold Emitted; rw [hm]; exact ⟨h1, h2⟩
    · cases hr : scanString fuel u.advance.2 with
      | none => rw [hr] at hs; exact absurd hs (by simp [addScanned])
      | some r1 =>
        rw [hr] at hs
        cases r1 with
        | ok lexeme v =>
          simp only [addScanned] at hs
          cases hs
          obtain ⟨hl, ht⟩ := scanString_end src fuel _ v lexeme hadv.1 hr
          refine ⟨hl, fun tok hm => ?_⟩
          rcases mem_addToken _ _ _ tok hm with hm | hm
          · rw [ht, htoks] at hm; exact Or.inl hm
          · right; unfold Emitted; rw [hm]; exact ⟨by decide, by decide⟩
        | exited message line v => simp [addScanned] at hs
        | thrown v => simp [addScanned] at hs
    · cases hr : scanNumber fuel u.advance.2 with
      | none => rw [hr] at hs; exact absurd hs (by simp [addScanned])
      | some r1 =>
        rw [hr] at hs
        cases r1 with
        | ok lexeme v =>
          simp only [addScanned] at hs
          cases hs
          obtain ⟨hl, ht⟩ := scanNumber_end src fuel _ v lexeme hadv.1 hlast hr
          refine ⟨hl, fun tok hm => ?_⟩
          rcases mem_addToken _ _ _ tok hm with hm | hm
          · rw [ht, htoks] at hm; exact Or.inl hm
          · right; unfold Emitted; rw [hm]; exact ⟨by decide, by decide⟩
        | exited message line v => simp [addScanned] at hs
        | thrown v => simp [addScanned] at hs
    · cases hr : scanIdentifier fuel u.advance.2 with
      | none => rw [hr] at hs; exact absurd hs (by simp [addScanned])
      | some r1 =>
        rw [hr] at hs
        cases r1 with
        | ok lexeme v =>
          simp only [addScanned] at hs
          cases hs
          obtain ⟨hl, ht⟩ := scanIdentifier_end src fuel _ v lexeme hadv.1 hlast hr
          refine ⟨hl, fun tok hm => ?_⟩
          rcases mem_addToken _ _ _ tok hm with hm | hm
          · rw [ht, htoks] at hm; exact Or.inl hm
          · right; unfold Emitted; rw [hm]; exact ⟨by decide, by decide⟩
        | exited message line v => simp [addScanned] at hs
        | thrown v => simp [addScanned] at hs
    · exact absurd he (by simp [error])

/-! ## The whole scan -/

/-- With more fuel than characters left, `tokenize` comes to an end. -/
theorem tokenize_total (fuel : Nat) (s : LexerImpl)
    (h : s.source_code.length - s.current_position < fuel) :
    ∃ r, tokenize fuel s = some r := by
  induction fuel generalizing s with
  | zero => exact absurd h (Nat.not_lt_zero _)
  | succ fuel ih =>
    rw [tokenize]
    split
    · rename_i hend
      have hlt : s.current_position < s.source_code.length := by
        simpa [isAtEnd] using hend
      obtain ⟨r, hr⟩ := tokenizeBody_total (fuel + 1) s h
      rw [hr]
      cases r with
      | ok v t =>
        have h1 := tokenizeBody_advances _ s t hr
        have h2 := (tokenizeBody_moves _ s _ hr).1
        have h3 : t.source_code = s.source_code := h2
        exact ih t (by rw [h3]; omega)
      | exited message line t => exact ⟨_, rfl⟩
      | thrown t => exact ⟨_, rfl⟩
    · exact ⟨_, rfl⟩

/-- When `tokenize` returns, the status is `SUCCESS` and the cursor is at the end
of the source. -/
theorem tokenize_ok (fuel : Nat) (s t : LexerImpl) (status : LexingStatus)
    (h : tokenize fuel s = some (Flow.ok status t)) :
    status = LexingStatus.SUCCESS ∧ t.isAtEnd = true := by
  induction fuel generalizing s with
  | zero => simp [tokenize] at h
  | succ fuel ih =>
    rw [tokenize] at h
    split at h
    · cases hb : tokenizeBody (fuel + 1) s with
      | none => rw [hb] at h; exact absurd h (by simp)
      | some r =>
        rw [hb] at h
        cases r with
        | ok v u => exact ih u h
        | exited message line u => exact absurd h (by simp)
        | thrown u => exact absurd h (by simp)
    · rename_i hend
      simp only [Option.some.injEq, Flow.ok.injEq] at h
      obtain ⟨rfl, rfl⟩ := h
      exact ⟨rfl, by simpa using hend⟩

/-- On members whose cursor is at the end of the source, `tokenize` returns
`SUCCESS` at once and leaves the members as they are. -/
theorem tokenize_atEnd (k : Nat) (s : LexerImpl) (h : s.isAtEnd = true) :
    tokenize (k + 1) s = some (Flow.ok LexingStatus.SUCCESS s) := by
  rw [tokenize, if_neg (by simp [h])]

/-- The ways `tokenize` ends on members whose line counter is in step: it
returns, or it ends the process with one of the two messages, printed with the
current line. `substr` never throws. -/
theorem tokenize_outcome (src : List Char) (fuel : Nat) (s : LexerImpl)
    (r : Flow LexingStatus) (h : LineInv src s) (hrun : tokenize fuel s = some r) :
    (∃ t, r = Flow.ok LexingStatus.SUCCESS t) ∨
    (∃ message t, r = Flow.exited message t.current_line t ∧
      (message = "Unexpected character" ∨ message = "Unterminated string")) := by
  induction fuel generalizing s with
  | zero => simp [tokenize] at hrun
  | succ fuel ih =>
    rw [tokenize] at hrun
    split at hrun
    · cases hb : tokenizeBody (fuel + 1) s with
      | none => rw [hb] at hrun; exact absurd hrun (by simp)
      | some r1 =>
        rw [hb] at hrun
        have hp := tokenizeBody_post src _ s r1 h hb
        cases r1 with
        | ok v u => exact ih u hp.1 hrun
        | exited message line u =>
          cases hrun
          obtain ⟨-, h2, -, h4⟩ := hp
          subst h2
          right
          refine ⟨message, u, rfl, ?_⟩
          rcases h4 with h4 | ⟨h4, -⟩
          · exact Or.inl h4
          · exact Or.inr h4
        | thrown u => exact absurd hp id
    · cases hrun
      exact Or.inl ⟨s, rfl⟩

/-- Every token `tokenize` adds is `Emitted`. -/
theorem tokenize_emitted (src : List Char) (fuel : Nat) (s : LexerImpl)
    (r : Flow LexingStatus) (h : LineInv src s) (hs : ∀ tok ∈ s.tokens, Emitted tok)
    (hrun : tokenize fuel s = some r) : ∀ tok ∈ r.st.tokens, Emitted tok := by
  induction fuel generalizing s with
  | zero => simp [tokenize] at hrun
  | succ fuel ih =>
    rw [tokenize] at hrun
    split at hrun
    · cases hb : tokenizeBody (fuel + 1) s with
      | none => rw [hb] at hrun; exact absurd hrun (by simp)
      | some r1 =>
        rw [hb] at hrun
        have hp := tokenizeBody_post src _ s r1 h hb
        cases r1 with
        | ok v u =>
          have he := (tokenizeBody_end src _ s u h hb).2
          refine ih u hp.1 (fun tok hm => ?_) hrun
          rcases he tok hm with h1 | h1
          · exact hs tok h1
          · exact h1
        | exited message line u =>
          cases hrun
          intro tok hm
          have h3 : u.tokens = s.tokens := hp.2.2.1
          have hm2 : tok ∈ u.tokens := hm
          rw [h3] at hm2
          exact hs tok hm2
        | thrown u => exact absurd hp id
    · cases hrun
      exact hs

/-- Once the scan of a source that ends with a blank is under way, `tokenize`
never finds the cursor at the end of the source at the head of its loop, so it
does not return. -/
theorem tokenize_trailing_blank (src : List Char) (last : Char) (fuel : Nat)
    (s t : LexerImpl) (status : LexingStatus) (hlast : src.getLast? = some last)
    (hblank : isBlank last = true) (h : LineInv src s)
    (hs : s.current_position < src.length ∨ LastNotBlank src s) :
    tokenize fuel s ≠ some (Flow.ok status t) := by
  induction fuel generalizing s with
  | zero => simp [tokenize]
  | succ fuel ih =>
    intro hrun
    rw [tokenize] at hrun
    split at hrun
    · cases hb : tokenizeBody (fuel + 1) s with
      | none => rw [hb] at hrun; exact absurd hrun (by simp)
      | some r1 =>
        rw [hb] at hrun
        cases r1 with
        | ok v u =>
          have hp := tokenizeBody_post src _ s _ h hb
          exact ih u hp.1 (Or.inr (tokenizeBody_end src _ s u h hb).1) hrun
        | exited message line u => exact absurd hrun (by simp)
        | thrown u => exact absurd hrun (by simp)
    · rename_i hend
      have hge : s.source_code.length ≤ s.current_position := by
        simpa [isAtEnd] using hend
      rw [h.1] at hge
      rcases hs with hs | ⟨hpos, ch, hch, hnb⟩
      · omega
      · have hpe : s.current_position = src.length := le_antisymm h.2.1 hge
        rw [hpe, ← List.getLast?_eq_getElem?, hlast] at hch
        cases hch
        rw [hblank] at hnb
        exact absurd hnb (by simp)

/-- On a character that begins no token the `switch` of `tokenize` takes its
last arm. -/
theorem dispatch_unexpected (fuel : Nat) (c : Char) (s : LexerImpl)
    (hstart : c ∉ tokenStarts) (hb : isBlank c = false) (hd : c.isDigit = false)
    (ha : c.isAlpha = false) :
    dispatch fuel c s = some (s.error "Unexpected character") := by
  obtain ⟨hws, hnl⟩ := (isBlank_eq_false_iff c).1 hb
  simp only [tokenStarts, List.mem_cons, List.mem_singleton, not_or, List.not_mem_nil,
    or_false] at hstart
  obtain ⟨h1, h2, h3, h4, h5, h6, h7, h8, h9, h10, h11, h12, h13, h14, h15, h16⟩ := hstart
  unfold dispatch
  rw [if_neg h1, if_neg h2, if_neg h3, if_neg h4, if_neg h5, if_neg h6, if_neg h7,
    if_neg h8, if_neg h9, if_neg h11, if_neg h12, if_neg h13, if_neg h14, if_neg h15,
    if_neg h10, if_neg hws, if_neg hnl, if_neg h16, hd, ha]
  rfl

theorem peek_mk_append (pre : List Char) (c : Char) (rest : List Char) (line : Nat)
    (toks : List Token) : (LexerImpl.mk (pre ++ c :: rest) pre.length line toks).peek = c := by
  have hget : (pre ++ c :: rest)[pre.length]? = some c := by
    rw [List.getElem?_append_right (le_refl _)]
    simp
  simp [peek, List.getD_eq_getElem?_getD, hget]

/-- Over a run of blanks followed by a character that is neither blank nor a
slash, `skipWhitespace` stops at that character, having counted the newlines
of the run. -/
theorem skipWhitespace_blanks (w : List Char) (hw : ∀ ch ∈ w, isBlank ch = true)
    (c : Char) (rest : List Char) (hb : isBlank c = false) (hsl : c ≠ '/')
    (pre : List Char) (line : Nat) (toks : List Token) (fuel : Nat)
    (hf : w.length < fuel) :
    skipWhitespace fuel (LexerImpl.mk (pre ++ (w ++ c :: rest)) pre.length line toks) =
      some (LexerImpl.mk (pre ++ (w ++ c :: rest)) (pre.length + w.length)
        (line + newlines w) toks) := by
  induction w generalizing pre line fuel with
  | nil =>
    cases fuel with
    | zero => exact absurd hf (by simp)
    | succ fuel =>
      obtain ⟨hws, hnl⟩ := (isBlank_eq_false_iff c).1 hb
      have hpeek : (LexerImpl.mk (pre ++ ([] ++ c :: rest)) pre.length line toks).peek
          = c := peek_mk_append pre c rest line toks
      rw [skipWhitespace, hpeek, if_neg hws, if_neg hnl, if_neg hsl]
      simp [newlines]
  | cons b w ih =>
    cases fuel with
    | zero => exact absurd hf (by simp)
    | succ fuel =>
      have hbb : isBlank b = true := hw b (List.mem_cons_self _ _)
      have hw2 : ∀ ch ∈ w, isBlank ch = true := fun ch hm => hw ch (List.mem_cons_of_mem _ hm)
      have hf2 : w.length < fuel := by simpa using hf
      have hpeek : (LexerImpl.mk (pre ++ (b :: w ++ c :: rest)) pre.length line toks).peek
          = b := peek_mk_append pre b (w ++ c :: rest) line toks
      have key := ih hw2 (pre ++ [b]) (line + if b = '\n' then 1 else 0) fuel hf2
      simp only [List.append_assoc, List.singleton_append, List.length_append,
        List.length_singleton, List.cons_append, List.nil_append] at key
      rw [skipWhitespace, hpeek, newlines_cons]
      by_cases hnl : b = '\n'
      · have hws : ¬ (b = ' ' ∨ b = '\r' ∨ b = '\t') := by
          rw [hnl]; decide
        rw [if_neg hws, if_pos hnl]
        simp only [hnl, if_true] at key ⊢
        simp only [advance, incrLine, List.length_append, List.length_cons, List.cons_append]
        rw [if_pos (by omega)]
        dsimp only
        rw [key]
        simp only [List.length_cons, Option.some.injEq, LexerImpl.mk.injEq, true_and, and_true]
        omega
      · have hws : b = ' ' ∨ b = '\r' ∨ b = '\t' := by
          have := hbb
          unfold isBlank at this
          simp only [decide_eq_true_eq] at this
          tauto
        rw [if_pos hws]
        simp only [hnl, if_false, Nat.add_zero, Nat.zero_add] at key ⊢
        simp only [advance, List.length_append, List.length_cons, List.cons_append]
        rw [if_pos (by omega)]
        dsimp only
        rw [key]
        simp only [List.length_cons, Option.some.injEq, LexerImpl.mk.injEq, true_and, and_true]
        omega

/-! ## More fuel gives the same result -/

theorem skipLine_fuel_succ (fuel : Nat) (s t : LexerImpl) (h : skipLine fuel s = some t) :
    skipLine (fuel + 1) s = some t := by
  induction fuel generalizing s with
  | zero => simp [skipLine] at h
  | succ fuel ih =>
    rw [skipLine] at h ⊢
    split
    · rename_i hc
      rw [if_pos hc] at h
      exact ih _ h
    · rename_i hc
      rw [if_neg hc] at h
      exact h

theorem skipComment_fuel_succ (fuel : Nat) (s t : LexerImpl)
    (h : skipComment fuel s = some t) : skipComment (fuel + 1) s = some t := by
  induction fuel generalizing s with
  | zero => simp [skipComment] at h
  | succ fuel ih =>
    rw [skipComment] at h ⊢
    split
    · rename_i hc
      rw [if_pos hc] at h
      exact ih _ h
    · rename_i hc
      rw [if_neg hc] at h
      exact h

theorem scanStringLoop_fuel_succ (fuel : Nat) (s t : LexerImpl)
    (h : scanStringLoop fuel s = some t) : scanStringLoop (fuel + 1) s = some t := by
  induction fuel generalizing s with
  | zero => simp [scanStringLoop] at h
  | succ fuel ih =>
    rw [scanStringLoop] at h ⊢
    split
    · rename_i hc
      rw [if_pos hc] at h
      exact ih _ h
    · rename_i hc
      rw [if_neg hc] at h
      exact h

theorem scanNumberLoop_fuel_succ (fuel : Nat) (s t : LexerImpl)
    (h : scanNumberLoop fuel s = some t) : scanNumberLoop (fuel + 1) s = some t := by
  induction fuel generalizing s with
  | zero => simp [scanNumberLoop] at h
  | succ fuel ih =>
    rw [scanNumberLoop] at h ⊢
    split
    · rename_i hc
      rw [if_pos hc] at h
      exact ih _ h
    · rename_i hc
      rw [if_neg hc] at h
      exact h

theorem scanIdentifierLoop_fuel_succ (fuel : Nat) (s t : LexerImpl)
    (h : scanIdentifierLoop fuel s = some t) : scanIdentifierLoop (fuel + 1) s = some t := by
  induction fuel generalizing s with
  | zero => simp [scanIdentifierLoop] at h
  | succ fuel ih =>
    rw [scanIdentifierLoop] at h ⊢
    split
    · rename_i hc
      rw [if_pos hc] at h
      exact ih _ h
    · rename_i hc
      rw [if_neg hc] at h
      exact h

theorem skipWhitespace_fuel_succ (fuel : Nat) (s t : LexerImpl)
    (h : skipWhitespace fuel s = some t) : skipWhitespace (fuel + 1) s = some t := by
  induction fuel generalizing s with
  | zero => simp [skipWhitespace] at h
  | succ fuel ih =>
    rw [skipWhitespace] at h ⊢
    by_cases hws : s.peek = ' ' ∨ s.peek = '\r' ∨ s.peek = '\t'
    · rw [if_pos hws] at h ⊢
      exact ih _ h
    rw [if_neg hws] at h ⊢
    by_cases hnl : s.peek = '\n'
    · rw [if_pos hnl] at h ⊢
      exact ih _ h
    rw [if_neg hnl] at h ⊢
    by_cases hsl : s.peek = '/'
    · rw [if_pos hsl, if_pos hsl] at h ⊢
      cases hl : skipLine (fuel + 1) s with
      | none => rw [hl] at h; exact absurd h (by simp)
      | some u =>
        rw [hl] at h
        rw [skipLine_fuel_succ _ s u hl]
        exact ih _ h
    rw [if_neg hsl] at h ⊢
    exact h

theorem scanString_fuel_succ (fuel : Nat) (s : LexerImpl) (r : Flow (List Char))
    (h : scanString fuel s = some r) : scanString (fuel + 1) s = some r := by
  unfold scanString at h ⊢
  cases hl : scanStringLoop fuel s with
  | none => rw [hl] at h; exact absurd h (by simp)
  | some u =>
    rw [hl] at h
    rw [scanStringLoop_fuel_succ fuel s u hl]
    exact h

theorem scanNumber_fuel_succ (fuel : Nat) (s : LexerImpl) (r : Flow (List Char))
    (h : scanNumber fuel s = some r) : scanNumber (fuel + 1) s = some r := by
  unfold scanNumber at h ⊢
  cases hl : scanNumberLoop fuel s with
  | none => rw [hl] at h; exact absurd h (by simp)
  | some u =>
    rw [hl] at h
    rw [scanNumberLoop_fuel_succ fuel s u hl]
    exact h

theorem scanIdentifier_fuel_succ (fuel : Nat) (s : LexerImpl) (r : Flow (List Char))
    (h : scanIdentifier fuel s = some r) : scanIdentifier (fuel + 1) s = some r := by
  unfold scanIdentifier at h ⊢
  cases hl : scanIdentifierLoop fuel s with
  | none => rw [hl] at h; exact absurd h (by simp)
  | some u =>
    rw [hl] at h
    rw [scanIdentifierLoop_fuel_succ fuel s u hl]
    exact h

theorem addScanned_fuel_succ (ty : TokenType) (o1 o2 : Option (Flow (List Char)))
    (r : Flow Unit) (ho : ∀ r1, o1 = some r1 → o2 = some r1)
    (h : addScanned ty o1 = some r) : addScanned ty o2 = some r := by
  cases o1 with
  | none => exact absurd h (by simp [addScanned])
  | some r1 => rw [ho r1 rfl]; exact h

theorem dispatch_fuel_succ (fuel : Nat) (c : Char) (s : LexerImpl) (r : Flow Unit)
    (h : dispatch fuel c s = some r) : dispatch (fuel + 1) c s = some r := by
  unfold dispatch at h ⊢
  iterate 14
    rw [ite_eq_iff] at h
    rcases h with ⟨hc, h⟩ | ⟨hc, h⟩
    · rw [if_pos hc]; exact h
    rw [if_neg hc]
  rw [ite_eq_iff] at h
  rcases h with ⟨hc, h⟩ | ⟨hc, h⟩
  · rw [if_pos hc]
    rw [ite_eq_iff] at h
    rcases h with ⟨hc2, h⟩ | ⟨hc2, h⟩
    · rw [if_pos hc2]
      cases hl : skipComment fuel s with
      | none => rw [hl] at h; exact absurd h (by simp)
      | some u =>
        rw [hl] at h
        rw [skipComment_fuel_succ fuel s u hl]
        exact h
    · rw [if_neg hc2]
      rw [ite_eq_iff] at h
      rcases h with ⟨hc3, h⟩ | ⟨hc3, h⟩
      · rw [skipMultilineComment_none] at h; exact absurd h (by simp)
      · rw [if_neg hc3]; exact h
  rw [if_neg hc]
  iterate 2
    rw [ite_eq_iff] at h
    rcases h with ⟨hc, h⟩ | ⟨hc, h⟩
    · rw [if_pos hc]; exact h
    rw [if_neg hc]
  rw [ite_eq_iff] at h
  rcases h with ⟨hc, h⟩ | ⟨hc, h⟩
  · rw [if_pos hc]
    exact addScanned_fuel_succ _ _ _ r (scanString_fuel_succ fuel s) h
  rw [if_neg hc]
  rw [ite_eq_iff] at h
  rcases h with ⟨hc, h⟩ | ⟨hc, h⟩
  · rw [if_pos hc]
    exact addScanned_fuel_succ _ _ _ r (scanNumber_fuel_succ fuel s) h
  rw [if_neg hc]
  rw [ite_eq_iff] at h
  rcases h with ⟨hc, h⟩ | ⟨hc, h⟩
  · rw [if_pos hc]
    exact addScanned_fuel_succ _ _ _ r (scanIdentifier_fuel_succ fuel s) h
  rw [if_neg hc]
  exact h

theorem tokenizeBody_fuel_succ (fuel : Nat) (s : LexerImpl) (r : Flow Unit)
    (h : tokenizeBody fuel s = some r) : tokenizeBody (fuel + 1) s = some r := by
  unfold tokenizeBody at h ⊢
  cases hw : skipWhitespace fuel s with
  | none => rw [hw] at h; exact absurd h (by simp)
  | some u =>
    rw [hw] at h
    rw [skipWhitespace_fuel_succ fuel s u hw]
    exact dispatch_fuel_succ fuel _ _ r h

theorem tokenize_fuel_succ (fuel : Nat) (s : LexerImpl) (r : Flow LexingStatus)
    (h : tokenize fuel s = some r) : tokenize (fuel + 1) s = some r := by
  induction fuel generalizing s with
  | zero => simp [tokenize] at h
  | succ fuel ih =>
    rw [tokenize] at h ⊢
    by_cases hend : ¬ s.isAtEnd = true
    · rw [if_pos hend] at h ⊢
      cases hb : tokenizeBody (fuel + 1) s with
      | none => rw [hb] at h; exact absurd h (by simp)
      | some r1 =>
        rw [hb] at h
        rw [tokenizeBody_fuel_succ _ s r1 hb]
        cases r1 with
        | ok v u => exact ih u h
        | exited message line u => exact h
        | thrown u => exact h
    · rw [if_neg hend] at h ⊢
      exact h

/-- More fuel does not change what `tokenize` gives. -/
theorem tokenize_fuel_le (fuel fuel2 : Nat) (s : LexerImpl) (r : Flow LexingStatus)
    (hle : fuel ≤ fuel2) (h : tokenize fuel s = some r) : tokenize fuel2 s = some r := by
  induction hle with
  | refl => exact h
  | step _ ih => exact tokenize_fuel_succ _ s r ih

/-! ## The two-character operators and the punctuation table -/

/-- C1: on each of the sources `!=`, `==`, `<=`, `>=` the scan returns
`SUCCESS` with two tokens, not one: the two-character kind is chosen from the
peeked `=`, which is not consumed, so the next iteration scans it again as an
`EQUAL` token. -/
theorem two_char_operator_leaves_equal (k : Nat) :
    Lexer.tokenize (k + 3) ['!', '='] = some (Flow.ok LexingStatus.SUCCESS
      { source_code := ['!', '='], current_position := 2, current_line := 1,
        tokens := [⟨TokenType.BANG_EQUAL, ['='], 1⟩, ⟨TokenType.EQUAL, [NUL], 1⟩] }) ∧
    Lexer.tokenize (k + 3) ['=', '='] = some (Flow.ok LexingStatus.SUCCESS
      { source_code := ['=', '='], current_position := 2, current_line := 1,
        tokens := [⟨TokenType.EQUAL_EQUAL, ['='], 1⟩, ⟨TokenType.EQUAL, [NUL], 1⟩] }) ∧
    Lexer.tokenize (k + 3) ['<', '='] = some (Flow.ok LexingStatus.SUCCESS
      { source_code := ['<', '='], current_position := 2, current_line := 1,
        tokens := [⟨TokenType.LESS_EQUAL, ['='], 1⟩, ⟨TokenType.EQUAL, [NUL], 1⟩] }) ∧
    Lexer.tokenize (k + 3) ['>', '='] = some (Flow.ok LexingStatus.SUCCESS
      { source_code := ['>', '='], current_position := 2, current_line := 1,
        tokens := [⟨TokenType.GREATER_EQUAL, ['='], 1⟩, ⟨TokenType.EQUAL, [NUL], 1⟩] }) :=
  ⟨rfl, rfl, rfl, rfl⟩

/-- C2: on the source `(` the scan returns `SUCCESS` with one `LEFT_PAREN`
token whose lexeme is the character `peek` yields after the cursor moved (here
the `'\0'` sentinel), not `(`; and on the source `/` no token is produced at
all, the scan ends with "Unexpected character". -/
theorem punctuation_lexeme_is_peeked (k : Nat) :
    Lexer.tokenize (k + 2) ['('] = some (Flow.ok LexingStatus.SUCCESS
      { source_code := ['('], current_position := 1, current_line := 1,
        tokens := [⟨TokenType.LEFT_PAREN, [NUL], 1⟩] }) ∧
    Lexer.tokenize (k + 2) ['/'] = some (Flow.exited "Unexpected character" 1
      { source_code := ['/'], current_position := 1, current_line := 1, tokens := [] }) :=
  ⟨rfl, rfl⟩

/-! ## Whitespace and comments -/

/-- C3: on the sources made of one space, of one newline, and of the line
comment `// c`, the scan does not return: `skipWhitespace` reaches the end of
the input, `advance` yields the `'\0'` sentinel and the scan ends with
"Unexpected character". -/
theorem whitespace_only_source_exits (k : Nat) :
    Lexer.tokenize (k + 2) [' '] = some (Flow.exited "Unexpected character" 1
      { source_code := [' '], current_position := 1, current_line := 1, tokens := [] }) ∧
    Lexer.tokenize (k + 2) ['\n'] = some (Flow.exited "Unexpected character" 2
      { source_code := ['\n'], current_position := 1, current_line := 2, tokens := [] }) ∧
    Lexer.tokenize (k + 5) ['/', '/', ' ', 'c'] = some (Flow.exited "Unexpected character" 1
      { source_code := ['/', '/', ' ', 'c'], current_position := 4, current_line := 1,
        tokens := [] }) :=
  ⟨rfl, rfl, rfl⟩

/-! ## Identifiers, keywords and numbers -/

/-- C4: on the source `classy` the scan returns `SUCCESS` with one `IDENTIFIER`
token whose lexeme is `lassy`: `scanIdentifier` takes `start` after the first
letter has been consumed. On the one-letter source `a` the run is empty and
the lexeme is the peeked `'\0'`. -/
theorem identifier_lexeme_drops_first_letter (k : Nat) :
    Lexer.tokenize (k + 6) "classy".toList = some (Flow.ok LexingStatus.SUCCESS
      { source_code := "classy".toList, current_position := 6, current_line := 1,
        tokens := [⟨TokenType.IDENTIFIER, "lassy".toList, 1⟩] }) ∧
    Lexer.tokenize (k + 2) ['a'] = some (Flow.ok LexingStatus.SUCCESS
      { source_code := ['a'], current_position := 1, current_line := 1,
        tokens := [⟨TokenType.IDENTIFIER, [NUL], 1⟩] }) :=
  ⟨rfl, rfl⟩

/-- C5, as stated, fails: the scan of the source `and` returns `SUCCESS` with
one token of kind `IDENTIFIER`, and whatever the fuel it does not return
`SUCCESS` with one token of kind `AND`. -/
theorem keyword_and_not_recognised :
    (∀ k, Lexer.tokenize (k + 3) "and".toList = some (Flow.ok LexingStatus.SUCCESS
      { source_code := "and".toList, current_position := 3, current_line := 1,
        tokens := [⟨TokenType.IDENTIFIER, "nd".toList, 1⟩] })) ∧
    ¬ ∃ fuel, (oneToken (Lexer.tokenize fuel "and".toList)).map Token.type
      = some TokenType.AND := by
  have e : ∀ k, Lexer.tokenize (k + 3) "and".toList = some (Flow.ok LexingStatus.SUCCESS
      { source_code := "and".toList, current_position := 3, current_line := 1,
        tokens := [⟨TokenType.IDENTIFIER, "nd".toList, 1⟩] }) := fun _ => rfl
  refine ⟨e, ?_⟩
  rintro ⟨fuel, h⟩
  rcases fuel with _ | _ | _ | k
  · exact absurd h (by decide)
  · exact absurd h (by decide)
  · exact absurd h (by decide)
  · rw [e k] at h
    exact absurd h (by decide)

/-- C5, amended: for each of the sixteen reserved words, the scan of the source
made of exactly that word returns `SUCCESS` with exactly one token, and its
kind is `IDENTIFIER`: there is no keyword table. -/
theorem reserved_word_scans_as_identifier (w : List Char) (kind : TokenType)
    (h : (w, kind) ∈ reservedWords) (k : Nat) :
    (oneToken (Lexer.tokenize (k + 6) w)).map Token.type = some TokenType.IDENTIFIER := by
  simp only [reservedWords, List.mem_cons, List.mem_singleton, Prod.mk.injEq,
    List.not_mem_nil, or_false] at h
  rcases h with h | h | h | h | h | h | h | h | h | h | h | h | h | h | h | h <;>
    (obtain ⟨rfl, -⟩ := h; rfl)

/-- The amended C5 at the reserved word `while`. -/
theorem reserved_word_scans_as_identifier_witness :
    ("while".toList, TokenType.WHILE) ∈ reservedWords ∧
    (oneToken (Lexer.tokenize 6 "while".toList)).map Token.type
      = some TokenType.IDENTIFIER :=
  ⟨by decide, reserved_word_scans_as_identifier "while".toList TokenType.WHILE (by decide) 0⟩

/-- C6: on the source `3.14` the scan returns `SUCCESS` with three tokens of
kinds `NUMBER`, `DOT`, `NUMBER`, whose lexemes are `.`, `1` and `4`, not `3`,
`.` and `14`: `scanNumber` takes `start` after the first digit, an empty run
is replaced by the peeked character, and so is the lexeme of `DOT`. -/
theorem number_lexeme_drops_first_digit (k : Nat) :
    Lexer.tokenize (k + 4) "3.14".toList = some (Flow.ok LexingStatus.SUCCESS
      { source_code := "3.14".toList, current_position := 4, current_line := 1,
        tokens := [⟨TokenType.NUMBER, ['.'], 1⟩, ⟨TokenType.DOT, ['1'], 1⟩,
          ⟨TokenType.NUMBER, ['4'], 1⟩] }) :=
  rfl

/-! ## String literals -/

/-- C7: on the source `"abc"` the scan returns `SUCCESS` with one `STRING` token
whose lexeme is `bc`, not `abc`: `start` is taken after the opening quote and
`substr` starts at `start + 1`. On the source `""` the count wraps around,
the extracted text is empty and the lexeme is the peeked `'\0'`. -/
theorem string_lexeme_drops_first_character (k : Nat) :
    Lexer.tokenize (k + 4) [DQUOTE, 'a', 'b', 'c', DQUOTE] =
      some (Flow.ok LexingStatus.SUCCESS
        { source_code := [DQUOTE, 'a', 'b', 'c', DQUOTE], current_position := 5,
          current_line := 1, tokens := [⟨TokenType.STRING, ['b', 'c'], 1⟩] }) ∧
    Lexer.tokenize (k + 2) [DQUOTE, DQUOTE] =
      some (Flow.ok LexingStatus.SUCCESS
        { source_code := [DQUOTE, DQUOTE], current_position := 2,
          current_line := 1, tokens := [⟨TokenType.STRING, [NUL], 1⟩] }) :=
  ⟨rfl, rfl⟩

/-- C9: for every text without a double quote, the scan of the source made of
a double quote followed by that text does not return: it ends the process with
"Unterminated string" at the end of the input, and the token sequence is still
empty at that moment. -/
theorem unterminated_string_exits (text : List Char) (hq : DQUOTE ∉ text) (k : Nat) :
    Lexer.tokenize (text.length + 2 + k) (DQUOTE :: text) =
      some (Flow.exited "Unterminated string" (1 + newlines text)
        { source_code := DQUOTE :: text, current_position := text.length + 1,
          current_line := 1 + newlines text, tokens := [] }) := by
  have hloop := scanStringLoop_no_quote text hq [DQUOTE] 1 [] (text.length + 1 + k + 1)
    (by omega)
  have hfuel : text.length + 2 + k = (text.length + 1 + k) + 1 := by omega
  rw [hfuel]
  unfold Lexer.tokenize
  rw [tokenize]
  have hend : (LexerImpl.new (DQUOTE :: text)).isAtEnd = false := by
    simp [isAtEnd, LexerImpl.new]
  have hpeek : (LexerImpl.new (DQUOTE :: text)).peek = DQUOTE := by
    simp [peek, LexerImpl.new]
  rw [hend, if_pos (by simp)]
  unfold tokenizeBody
  rw [skipWhitespace_DQUOTE _ _ hpeek]
  simp only []
  rw [advance_fst, hpeek, dispatch_DQUOTE]
  have hadv : (LexerImpl.new (DQUOTE :: text)).advance.2 =
      { source_code := [DQUOTE] ++ text, current_position := [DQUOTE].length,
        current_line := 1, tokens := [] } := by
    simp [advance, LexerImpl.new]
  rw [hadv]
  unfold scanString
  simp only []
  rw [hloop]
  simp [isAtEnd, addScanned, error, Nat.add_comm]


/-- C9 at the source `"abc`. -/
theorem unterminated_string_exits_witness :
    DQUOTE ∉ ['a', 'b', 'c'] ∧
    Lexer.tokenize 5 [DQUOTE, 'a', 'b', 'c'] =
      some (Flow.exited "Unterminated string" 1
        { source_code := [DQUOTE, 'a', 'b', 'c'], current_position := 4,
          current_line := 1, tokens := [] }) :=
  ⟨by decide, unterminated_string_exits ['a', 'b', 'c'] (by decide) 0⟩

/-- C8: on a source with at most `2^31 - 2` newlines, so that the `int` line
counter does not overflow, a `STRING` token added by an iteration of the loop
of `tokenize`, started on members the scan of `src` can reach, is added right
after the closing quote of its literal (the first quote `q` after the opening
quote `p`) and carries the line of that closing quote, one more than the
number of newlines of `src` before `q`, which is within `INT_MAX`. On the
source made of two newlines and the literal `"a⏎b"`, the `STRING` token
carries line 4, while its opening quote is on line 3. -/
theorem string_token_line_is_closing_quote_line :
    (∀ (src : List Char) (fuel : Nat) (s t : LexerImpl) (added : List Token) (tok : Token),
      1 + newlines src ≤ INT_MAX →
      Reachable src s → tokenizeBody fuel s = some (Flow.ok () t) →
      t.tokens = s.tokens ++ added → tok ∈ added → tok.type = TokenType.STRING →
      ∃ p q, s.current_position ≤ p ∧ p < q ∧ src[p]? = some DQUOTE ∧
        src[q]? = some DQUOTE ∧ (∀ i, p < i → i < q → src[i]? ≠ some DQUOTE) ∧
        t.current_position = q + 1 ∧ tok.line = 1 + newlines (src.take q) ∧
        tok.line ≤ INT_MAX) ∧
    (∀ k, Lexer.tokenize (k + 4) ['\n', '\n', DQUOTE, 'a', '\n', 'b', DQUOTE] =
      some (Flow.ok LexingStatus.SUCCESS
        { source_code := ['\n', '\n', DQUOTE, 'a', '\n', 'b', DQUOTE],
          current_position := 7, current_line := 4,
          tokens := [⟨TokenType.STRING, ['\n', 'b'], 4⟩] })) ∧
    1 + newlines (['\n', '\n', DQUOTE, 'a', '\n', 'b', DQUOTE].take 2) = 3 := by
  refine ⟨?_, fun _ => rfl, by decide⟩
  intro src fuel s t added tok hbound hr hb hadd hmem hty
  have hinv := Reachable_LineInv src s hr
  obtain ⟨ht, -, htok⟩ := tokenizeBody_post src fuel s _ hinv hb
  rcases htok with hsame | ⟨tok2, hone, hline, hclose⟩
  · rw [hsame] at hadd
    have : added = [] := by simpa using hadd
    rw [this] at hmem
    exact absurd hmem (List.not_mem_nil _)
  · rw [hone] at hadd
    have hadded : added = [tok2] := (List.append_cancel_left hadd).symm
    rw [hadded, List.mem_singleton] at hmem
    subst hmem
    obtain ⟨p, q, h1, h2, h3, h4, h5, h6⟩ := hclose hty
    have hle := newlines_take_le src q
    suffices hval : tok.line = 1 + newlines (src.take q) from
      ⟨p, q, h1, h2, h3, h4, h5, h6, hval, by omega⟩
    have hq : q < src.length := by
      rcases Nat.lt_or_ge q src.length with h | h
      · exact h
      · rw [List.getElem?_eq_none h] at h4
        exact absurd h4 (by simp)
    have hstep := newlines_take_succ src q hq
    have hne : src.getD q NUL ≠ '\n' := by
      rw [List.getD_eq_getElem?_getD, h4]
      decide
    rw [if_neg hne] at hstep
    rw [hline, ht.2.2, h6, hstep, Nat.add_zero]

/-- C8 at the source made of two newlines and the literal `"a⏎b"`: the first
iteration adds the `STRING` token with line 4, the line of the closing quote at
offset 6. -/
theorem string_token_line_is_closing_quote_line_witness :
    Reachable ['\n', '\n', DQUOTE, 'a', '\n', 'b', DQUOTE]
      (LexerImpl.new ['\n', '\n', DQUOTE, 'a', '\n', 'b', DQUOTE]) ∧
    1 + newlines ['\n', '\n', DQUOTE, 'a', '\n', 'b', DQUOTE] ≤ INT_MAX ∧
    ∃ p q, 0 ≤ p ∧ p < q ∧
      ['\n', '\n', DQUOTE, 'a', '\n', 'b', DQUOTE][p]? = some DQUOTE ∧
      ['\n', '\n', DQUOTE, 'a', '\n', 'b', DQUOTE][q]? = some DQUOTE ∧
      (∀ i, p < i → i < q →
        ['\n', '\n', DQUOTE, 'a', '\n', 'b', DQUOTE][i]? ≠ some DQUOTE) ∧
      7 = q + 1 ∧
      4 = 1 + newlines (['\n', '\n', DQUOTE, 'a', '\n', 'b', DQUOTE].take q) ∧
      4 ≤ INT_MAX :=
  ⟨Reachable.init, by decide,
    string_token_line_is_closing_quote_line.1
      ['\n', '\n', DQUOTE, 'a', '\n', 'b', DQUOTE] 4
      (LexerImpl.new ['\n', '\n', DQUOTE, 'a', '\n', 'b', DQUOTE])
      { source_code := ['\n', '\n', DQUOTE, 'a', '\n', 'b', DQUOTE],
        current_position := 7, current_line := 4,
        tokens := [⟨TokenType.STRING, ['\n', 'b'], 4⟩] }
      [⟨TokenType.STRING, ['\n', 'b'], 4⟩] ⟨TokenType.STRING, ['\n', 'b'], 4⟩
      (by decide) Reachable.init rfl rfl (List.mem_singleton_self _) rfl⟩

/-- C10, as stated, fails: on the source made of a double quote, `a`, a newline
and `b`, the scan ends with "Unterminated string" and line 2, and whatever the
fuel it does not end with "Unterminated string" and line 1, the line of the
opening quote (no newline comes before it). -/
theorem unterminated_line_is_not_opening_line :
    (∀ k, Lexer.tokenize (k + 5) [DQUOTE, 'a', '\n', 'b'] =
      some (Flow.exited "Unterminated string" 2
        { source_code := [DQUOTE, 'a', '\n', 'b'], current_position := 4,
          current_line := 2, tokens := [] })) ∧
    ¬ ∃ fuel st, Lexer.tokenize fuel [DQUOTE, 'a', '\n', 'b'] =
      some (Flow.exited "Unterminated string" (1 + newlines ([] : List Char)) st) := by
  refine ⟨fun _ => rfl, ?_⟩
  rintro ⟨fuel, st, h⟩
  have := tokenize_unterminated_line _ fuel _ st _ (LineInv_new _) h
  exact absurd this (by decide)

/-- C10, amended: whenever the scan of a source with at most `2^31 - 2`
newlines, so that the `int` line counter does not overflow, ends with
"Unterminated string", the line printed with it is one more than the number of
newlines of the whole source: the line on which the input ends, the newlines
inside the unterminated literal included. It is within `INT_MAX`. -/
theorem unterminated_line_is_last_line (src : List Char) (fuel line : Nat) (st : LexerImpl)
    (hbound : 1 + newlines src ≤ INT_MAX)
    (h : Lexer.tokenize fuel src = some (Flow.exited "Unterminated string" line st)) :
    line = 1 + newlines src ∧ line ≤ INT_MAX := by
  have hval := tokenize_unterminated_line src fuel _ st line (LineInv_new src) h
  exact ⟨hval, by rw [hval]; exact hbound⟩

/-- The amended C10 at the source made of a double quote, `a`, a newline and
`b`: the printed line is 2. -/
theorem unterminated_line_is_last_line_witness :
    Lexer.tokenize 5 [DQUOTE, 'a', '\n', 'b'] =
      some (Flow.exited "Unterminated string" 2
        { source_code := [DQUOTE, 'a', '\n', 'b'], current_position := 4,
          current_line := 2, tokens := [] }) ∧
    1 + newlines [DQUOTE, 'a', '\n', 'b'] ≤ INT_MAX ∧
    2 = 1 + newlines [DQUOTE, 'a', '\n', 'b'] ∧ 2 ≤ INT_MAX :=
  ⟨rfl, by decide, unterminated_line_is_last_line [DQUOTE, 'a', '\n', 'b'] 5 2
    { source_code := [DQUOTE, 'a', '\n', 'b'], current_position := 4,
      current_line := 2, tokens := [] } (by decide) rfl⟩


/-! ## Errors, comments and the invariants of the scan -/

/-- C11: on a source made of blanks `w` with at most `2^31 - 2` newlines, so
that the `int` line counter does not overflow, then an ASCII character `c`
that is not blank, begins no punctuation, operator or string token, and is
neither a digit nor a letter, then anything, the scan does not return: it ends
the process with "Unexpected character", printed with line 1 + the number of
newlines of `w`, and no token has been added. -/
theorem unexpected_character_exits (w rest : List Char) (c : Char)
    (hw : ∀ ch ∈ w, isBlank ch = true) (_hbound : 1 + newlines w ≤ INT_MAX)
    (_hascii : c.toNat < 128)
    (hb : isBlank c = false) (hstart : c ∉ tokenStarts) (hd : c.isDigit = false)
    (ha : c.isAlpha = false) (k : Nat) :
    Lexer.tokenize (w.length + 2 + k) (w ++ c :: rest) =
      some (Flow.exited "Unexpected character" (1 + newlines w)
        { source_code := w ++ c :: rest, current_position := w.length + 1,
          current_line := 1 + newlines w, tokens := [] }) := by
  have hsl : c ≠ '/' := by
    intro e
    apply hstart
    rw [e]
    decide
  have hskip := skipWhitespace_blanks w hw c rest hb hsl [] 1 [] (w.length + 1 + k + 1)
    (by omega)
  simp only [List.nil_append, List.length_nil, Nat.zero_add] at hskip
  have hfuel : w.length + 2 + k = (w.length + 1 + k) + 1 := by omega
  rw [hfuel]
  unfold Lexer.tokenize
  rw [tokenize]
  have hend : (LexerImpl.new (w ++ c :: rest)).isAtEnd = false := by
    simp [isAtEnd, LexerImpl.new]
  rw [hend, if_pos (by simp)]
  unfold tokenizeBody
  have hnew : LexerImpl.new (w ++ c :: rest) = LexerImpl.mk (w ++ c :: rest) 0 1 [] := rfl
  rw [hnew, hskip]
  dsimp only
  have hget : (w ++ c :: rest)[w.length]? = some c := by
    rw [List.getElem?_append_right (le_refl _)]
    simp
  have hadv : (LexerImpl.mk (w ++ c :: rest) w.length (1 + newlines w) []).advance =
      (c, LexerImpl.mk (w ++ c :: rest) (w.length + 1) (1 + newlines w) []) := by
    simp [advance, List.getD_eq_getElem?_getD, hget]
  rw [hadv]
  dsimp only
  rw [dispatch_unexpected _ c _ hstart hb hd ha]
  rfl

/-- C11 at the source made of a space, a newline and `#`: the printed line
is 2. -/
theorem unexpected_character_exits_witness :
    (∀ ch ∈ [' ', '\n'], isBlank ch = true) ∧ 1 + newlines [' ', '\n'] ≤ INT_MAX ∧
    '#'.toNat < 128 ∧ isBlank '#' = false ∧
    '#' ∉ tokenStarts ∧ '#'.isDigit = false ∧ '#'.isAlpha = false ∧
    Lexer.tokenize 4 [' ', '\n', '#'] =
      some (Flow.exited "Unexpected character" 2
        { source_code := [' ', '\n', '#'], current_position := 3,
          current_line := 2, tokens := [] }) :=
  ⟨by decide, by decide, by decide, by decide, by decide, by decide, by decide,
    unexpected_character_exits [' ', '\n'] [] '#' (by decide) (by decide) (by decide)
      (by decide) (by decide) (by decide) (by decide) 0⟩

/-- C12: on the source made of `a` and one space, which holds only a letter and
a blank, the scan does not return `SUCCESS`: after the identifier,
`skipWhitespace` reaches the end of the input, `advance` yields the `'\0'`
sentinel and the scan ends with "Unexpected character". -/
theorem trailing_space_is_unexpected (k : Nat) :
    Lexer.tokenize (k + 3) ['a', ' '] = some (Flow.exited "Unexpected character" 1
      { source_code := ['a', ' '], current_position := 2, current_line := 1,
        tokens := [⟨TokenType.IDENTIFIER, [' '], 1⟩] }) :=
  rfl

/-- C13: on the sources `/` and `/1` the scan adds no `SLASH` token: it ends with
"Unexpected character" and an empty token sequence, `skipWhitespace` having
taken the slash for the start of a line comment. No scan of any source adds a
token of kind `SLASH`. -/
theorem slash_is_never_a_token :
    (∀ k, Lexer.tokenize (k + 2) ['/'] = some (Flow.exited "Unexpected character" 1
      { source_code := ['/'], current_position := 1, current_line := 1, tokens := [] })) ∧
    (∀ k, Lexer.tokenize (k + 3) ['/', '1'] = some (Flow.exited "Unexpected character" 1
      { source_code := ['/', '1'], current_position := 2, current_line := 1,
        tokens := [] })) ∧
    (∀ (src : List Char) (fuel : Nat) (r : Flow LexingStatus),
      Lexer.tokenize fuel src = some r → ∀ tok ∈ r.st.tokens, tok.type ≠ TokenType.SLASH) := by
  refine ⟨fun _ => rfl, fun _ => rfl, ?_⟩
  intro src fuel r hrun tok hm
  exact (tokenize_emitted src fuel _ r (LineInv_new src)
    (fun _ h => absurd h (List.not_mem_nil _)) hrun tok hm).2

/-- C14: on the source `/**/;` the scan adds no token and ends with "Unexpected
character": `skipWhitespace` skips the whole line as a line comment. With the
body made of a newline and `x`, the scan adds an `IDENTIFIER` and a `STAR`
token on line 2 before it ends the same way. No `SEMICOLON` token is added. -/
theorem block_comment_is_a_line_comment (k : Nat) :
    Lexer.tokenize (k + 6) ['/', '*', '*', '/', ';'] =
      some (Flow.exited "Unexpected character" 1
        { source_code := ['/', '*', '*', '/', ';'], current_position := 5,
          current_line := 1, tokens := [] }) ∧
    Lexer.tokenize (k + 8) ['/', '*', '\n', 'x', '*', '/', ';'] =
      some (Flow.exited "Unexpected character" 2
        { source_code := ['/', '*', '\n', 'x', '*', '/', ';'], current_position := 7,
          current_line := 2,
          tokens := [⟨TokenType.IDENTIFIER, ['*'], 2⟩, ⟨TokenType.STAR, ['/'], 2⟩] }) :=
  ⟨rfl, rfl⟩

/-- C15: when `tokenize` has returned on the members of a `Lexer`, the status
was `SUCCESS`, and a second call, which `Lexer::tokenize` forwards to the same
`LexerImpl`, returns `SUCCESS` again and leaves the members (tokens, cursor,
line counter) exactly as the first call left them. -/
theorem second_tokenize_changes_nothing (fuel : Nat) (s t : LexerImpl)
    (status : LexingStatus) (h : LexerImpl.tokenize fuel s = some (Flow.ok status t))
    (k : Nat) :
    status = LexingStatus.SUCCESS ∧
      LexerImpl.tokenize (k + 1) t = some (Flow.ok LexingStatus.SUCCESS t) :=
  ⟨(tokenize_ok fuel s t status h).1, tokenize_atEnd k t (tokenize_ok fuel s t status h).2⟩

/-- C15 on the `Lexer` built on the source `classy`. -/
theorem second_tokenize_changes_nothing_witness :
    LexerImpl.tokenize 6 (LexerImpl.new "classy".toList) =
      some (Flow.ok LexingStatus.SUCCESS
        { source_code := "classy".toList, current_position := 6, current_line := 1,
          tokens := [⟨TokenType.IDENTIFIER, "lassy".toList, 1⟩] }) ∧
    LexerImpl.tokenize 1
        { source_code := "classy".toList, current_position := 6, current_line := 1,
          tokens := [⟨TokenType.IDENTIFIER, "lassy".toList, 1⟩] } =
      some (Flow.ok LexingStatus.SUCCESS
        { source_code := "classy".toList, current_position := 6, current_line := 1,
          tokens := [⟨TokenType.IDENTIFIER, "lassy".toList, 1⟩] }) :=
  ⟨rfl, (second_tokenize_changes_nothing 6 (LexerImpl.new "classy".toList)
    { source_code := "classy".toList, current_position := 6, current_line := 1,
      tokens := [⟨TokenType.IDENTIFIER, "lassy".toList, 1⟩] }
    LexingStatus.SUCCESS rfl 0).2⟩

/-- C16: when the scan of a source returns `SUCCESS`, no token of the sequence
has the kind `END_OF_FILE`; and the scan of the empty source returns `SUCCESS`
with an empty token sequence. -/
theorem no_end_marker_is_emitted :
    (∀ (src : List Char) (fuel : Nat) (t : LexerImpl),
      Lexer.tokenize fuel src = some (Flow.ok LexingStatus.SUCCESS t) →
      ∀ tok ∈ t.tokens, tok.type ≠ TokenType.END_OF_FILE) ∧
    (∀ k, Lexer.tokenize (k + 1) [] = some (Flow.ok LexingStatus.SUCCESS
      { source_code := [], current_position := 0, current_line := 1, tokens := [] })) := by
  refine ⟨?_, fun _ => rfl⟩
  intro src fuel t hrun tok hm
  exact (tokenize_emitted src fuel _ _ (LineInv_new src)
    (fun _ h => absurd h (List.not_mem_nil _)) hrun tok hm).1

/-- C16 at the source `3.14`, whose three tokens are not end markers. -/
theorem no_end_marker_is_emitted_witness :
    Lexer.tokenize 4 "3.14".toList = some (Flow.ok LexingStatus.SUCCESS
      { source_code := "3.14".toList, current_position := 4, current_line := 1,
        tokens := [⟨TokenType.NUMBER, ['.'], 1⟩, ⟨TokenType.DOT, ['1'], 1⟩,
          ⟨TokenType.NUMBER, ['4'], 1⟩] }) ∧
    ∀ tok ∈ [(⟨TokenType.NUMBER, ['.'], 1⟩ : Token), ⟨TokenType.DOT, ['1'], 1⟩,
        ⟨TokenType.NUMBER, ['4'], 1⟩], tok.type ≠ TokenType.END_OF_FILE :=
  ⟨rfl, no_end_marker_is_emitted.1 "3.14".toList 4
    { source_code := "3.14".toList, current_position := 4, current_line := 1,
      tokens := [⟨TokenType.NUMBER, ['.'], 1⟩, ⟨TokenType.DOT, ['1'], 1⟩,
        ⟨TokenType.NUMBER, ['4'], 1⟩] } rfl⟩

/-- C17: with more fuel than the source has characters, the scan of any source
comes to an end, either returning `SUCCESS` or ending the process with one of
the two messages; an iteration of the loop that does not end the process moves
the cursor strictly forward; `skipWhitespace` never leaves a slash to the
`switch`, so the arm that calls `skipMultilineComment` is not entered, and its
own call is guarded by `peek() != '/'` under `case '/'`. The loop of
`skipMultilineComment` would never be left (no fuel is enough), so a caller
that reached it would not come to an end either. The scan of `/* x` ends with
"Unexpected character". What a scan gives does not change with more fuel. -/
theorem tokenize_terminates :
    (∀ (src : List Char) (fuel : Nat), src.length < fuel →
      (∃ t, Lexer.tokenize fuel src = some (Flow.ok LexingStatus.SUCCESS t)) ∨
      (∃ message t, Lexer.tokenize fuel src = some (Flow.exited message t.current_line t) ∧
        (message = "Unexpected character" ∨ message = "Unterminated string"))) ∧
    (∀ (fuel : Nat) (s t : LexerImpl), tokenizeBody fuel s = some (Flow.ok () t) →
      s.current_position < t.current_position) ∧
    (∀ (fuel : Nat) (s t : LexerImpl), skipWhitespace fuel s = some t →
      t.advance.1 ≠ '/') ∧
    (∀ (fuel : Nat) (s : LexerImpl), skipMultilineComment fuel s = none) ∧
    (∀ k, Lexer.tokenize (k + 5) ['/', '*', ' ', 'x'] =
      some (Flow.exited "Unexpected character" 1
        { source_code := ['/', '*', ' ', 'x'], current_position := 4,
          current_line := 1, tokens := [] })) ∧
    (∀ (src : List Char) (fuel fuel2 : Nat) (r : Flow LexingStatus), fuel ≤ fuel2 →
      Lexer.tokenize fuel src = some r → Lexer.tokenize fuel2 src = some r) := by
  refine ⟨?_, tokenizeBody_advances, ?_, skipMultilineComment_none, fun _ => rfl,
    fun src fuel fuel2 r hle h => tokenize_fuel_le fuel fuel2 _ r hle h⟩
  · intro src fuel hf
    obtain ⟨r, hr⟩ := tokenize_total fuel (LexerImpl.new src) (by simpa [LexerImpl.new] using hf)
    rcases tokenize_outcome src fuel _ r (LineInv_new src) hr with ⟨t, rfl⟩ |
      ⟨message, t, rfl, hm⟩
    · exact Or.inl ⟨t, hr⟩
    · exact Or.inr ⟨message, t, hr, hm⟩
  · intro fuel s t hrun
    rw [advance_fst]
    exact (skipWhitespace_stops fuel s t hrun).2

/-- C17 at the source `/* x` with fuel 5. -/
theorem tokenize_terminates_witness :
    ['/', '*', ' ', 'x'].length < 5 ∧
    ((∃ t, Lexer.tokenize 5 ['/', '*', ' ', 'x'] = some (Flow.ok LexingStatus.SUCCESS t)) ∨
      (∃ message t, Lexer.tokenize 5 ['/', '*', ' ', 'x'] =
          some (Flow.exited message t.current_line t) ∧
        (message = "Unexpected character" ∨ message = "Unterminated string"))) :=
  ⟨by decide, tokenize_terminates.1 ['/', '*', ' ', 'x'] 5 (by decide)⟩

/-- C18: the cursor starts at 0, and each scanner operation (`advance`,
`skipWhitespace`, `skipLine`, `skipComment`, `scanString`, `scanNumber`,
`scanIdentifier`, an iteration of the loop of `tokenize`), however it leaves,
keeps the source, does not move the cursor back, and leaves it within the
source when it was; so the cursor is within the source at the head of every
iteration. -/
theorem cursor_never_decreases_nor_overruns :
    (∀ src : List Char, (LexerImpl.new src).current_position = 0) ∧
    (∀ s : LexerImpl, Moves s s.advance.2) ∧
    (∀ (fuel : Nat) (s t : LexerImpl), skipWhitespace fuel s = some t → Moves s t) ∧
    (∀ (fuel : Nat) (s t : LexerImpl), skipLine fuel s = some t → Moves s t) ∧
    (∀ (fuel : Nat) (s t : LexerImpl), skipComment fuel s = some t → Moves s t) ∧
    (∀ (fuel : Nat) (s : LexerImpl) (r : Flow (List Char)),
      scanString fuel s = some r → Moves s r.st) ∧
    (∀ (fuel : Nat) (s : LexerImpl) (r : Flow (List Char)),
      scanNumber fuel s = some r → Moves s r.st) ∧
    (∀ (fuel : Nat) (s : LexerImpl) (r : Flow (List Char)),
      scanIdentifier fuel s = some r → Moves s r.st) ∧
    (∀ (fuel : Nat) (s : LexerImpl) (r : Flow Unit),
      tokenizeBody fuel s = some r → Moves s r.st) ∧
    (∀ (src : List Char) (s : LexerImpl), Reachable src s →
      s.source_code = src ∧ s.current_position ≤ src.length) :=
  ⟨fun _ => rfl, Moves_advance, skipWhitespace_moves, skipLine_moves, skipComment_moves,
    scanString_moves, scanNumber_moves, scanIdentifier_moves, tokenizeBody_moves,
    fun src s hr => ⟨(Reachable_LineInv src s hr).1, (Reachable_LineInv src s hr).2.1⟩⟩

/-- C18 at the first iteration on the source made of two newlines and the
literal `"a⏎b"`: the cursor goes from 0 to 7, the length of the source. -/
theorem cursor_never_decreases_nor_overruns_witness :
    tokenizeBody 4 (LexerImpl.new ['\n', '\n', DQUOTE, 'a', '\n', 'b', DQUOTE]) =
      some (Flow.ok ()
        { source_code := ['\n', '\n', DQUOTE, 'a', '\n', 'b', DQUOTE],
          current_position := 7, current_line := 4,
          tokens := [⟨TokenType.STRING, ['\n', 'b'], 4⟩] }) ∧
    Moves (LexerImpl.new ['\n', '\n', DQUOTE, 'a', '\n', 'b', DQUOTE])
      { source_code := ['\n', '\n', DQUOTE, 'a', '\n', 'b', DQUOTE],
        current_position := 7, current_line := 4,
        tokens := [⟨TokenType.STRING, ['\n', 'b'], 4⟩] } :=
  ⟨rfl, cursor_never_decreases_nor_overruns.2.2.2.2.2.2.2.2.1 4
    (LexerImpl.new ['\n', '\n', DQUOTE, 'a', '\n', 'b', DQUOTE]) _ rfl⟩

/-- C19: the line counter starts at 1, and on a source `src` with at most
`2^31 - 2` newlines, so that the `int` counter does not overflow, after every
iteration of the loop of `tokenize`, started on members the scan of `src` can
reach and however it leaves, `current_line` is one more than the number of
newlines of `src` before the cursor, and within `INT_MAX`. -/
theorem line_counter_counts_newlines :
    (∀ src : List Char, (LexerImpl.new src).current_line = 1) ∧
    (∀ (src : List Char) (fuel : Nat) (s : LexerImpl) (r : Flow Unit),
      1 + newlines src ≤ INT_MAX →
      Reachable src s → tokenizeBody fuel s = some r →
      r.st.current_line = 1 + newlines (src.take r.st.current_position) ∧
        r.st.current_line ≤ INT_MAX) := by
  refine ⟨fun _ => rfl, ?_⟩
  intro src fuel s r hbound hr hb
  have hp := tokenizeBody_post src fuel s r (Reachable_LineInv src s hr) hb
  have hle := newlines_take_le src r.st.current_position
  suffices hval : r.st.current_line = 1 + newlines (src.take r.st.current_position) from
    ⟨hval, by omega⟩
  cases r with
  | ok v t => exact hp.1.2.2
  | exited message line t => exact hp.1.2.2
  | thrown t => exact absurd hp id

/-- C19 at the first iteration on the source made of two newlines and the
literal `"a⏎b"`: the line counter is 4 with the cursor at 7, after three
newlines. -/
theorem line_counter_counts_newlines_witness :
    Reachable ['\n', '\n', DQUOTE, 'a', '\n', 'b', DQUOTE]
      (LexerImpl.new ['\n', '\n', DQUOTE, 'a', '\n', 'b', DQUOTE]) ∧
    tokenizeBody 4 (LexerImpl.new ['\n', '\n', DQUOTE, 'a', '\n', 'b', DQUOTE]) =
      some (Flow.ok ()
        { source_code := ['\n', '\n', DQUOTE, 'a', '\n', 'b', DQUOTE],
          current_position := 7, current_line := 4,
          tokens := [⟨TokenType.STRING, ['\n', 'b'], 4⟩] }) ∧
    1 + newlines ['\n', '\n', DQUOTE, 'a', '\n', 'b', DQUOTE] ≤ INT_MAX ∧
    4 = 1 + newlines (['\n', '\n', DQUOTE, 'a', '\n', 'b', DQUOTE].take 7) ∧
    4 ≤ INT_MAX :=
  ⟨Reachable.init, rfl, by decide,
    line_counter_counts_newlines.2 ['\n', '\n', DQUOTE, 'a', '\n', 'b', DQUOTE] 4
      (LexerImpl.new ['\n', '\n', DQUOTE, 'a', '\n', 'b', DQUOTE])
      (Flow.ok ()
        { source_code := ['\n', '\n', DQUOTE, 'a', '\n', 'b', DQUOTE],
          current_position := 7, current_line := 4,
          tokens := [⟨TokenType.STRING, ['\n', 'b'], 4⟩] })
      (by decide) Reachable.init rfl⟩

/-- C20: on a non-empty source whose last character is a space, a tab, a
carriage return or a newline, the scan never returns, whatever the fuel; and
with more fuel than the source has characters it ends the process with
"Unexpected character" or "Unterminated string". -/
theorem trailing_blank_is_rejected (src : List Char) (last : Char)
    (hlast : src.getLast? = some last) (hblank : isBlank last = true) :
    (∀ (fuel : Nat) (status : LexingStatus) (t : LexerImpl),
      Lexer.tokenize fuel src ≠ some (Flow.ok status t)) ∧
    (∀ fuel : Nat, src.length < fuel →
      ∃ message t, Lexer.tokenize fuel src = some (Flow.exited message t.current_line t) ∧
        (message = "Unexpected character" ∨ message = "Unterminated string")) := by
  have hne : 0 < src.length := by
    rcases src with _ | ⟨a, l⟩
    · simp at hlast
    · simp
  have hnot : ∀ (fuel : Nat) (status : LexingStatus) (t : LexerImpl),
      Lexer.tokenize fuel src ≠ some (Flow.ok status t) := fun fuel status t =>
    tokenize_trailing_blank src last fuel (LexerImpl.new src) t status hlast hblank
      (LineInv_new src) (Or.inl hne)
  refine ⟨hnot, fun fuel hf => ?_⟩
  obtain ⟨r, hr⟩ := tokenize_total fuel (LexerImpl.new src) (by simpa [LexerImpl.new] using hf)
  rcases tokenize_outcome src fuel _ r (LineInv_new src) hr with ⟨t, rfl⟩ |
    ⟨message, t, rfl, hm⟩
  · exact absurd hr (hnot fuel _ t)
  · exact ⟨message, t, hr, hm⟩

/-- C20 at the source made of `a` and one space. -/
theorem trailing_blank_is_rejected_witness :
    ['a', ' '].getLast? = some ' ' ∧ isBlank ' ' = true ∧
    ∃ message t, Lexer.tokenize 3 ['a', ' '] = some (Flow.exited message t.current_line t) ∧
      (message = "Unexpected character" ∨ message = "Unterminated string") :=
  ⟨rfl, by decide, (trailing_blank_is_rejected ['a', ' '] ' ' rfl (by decide)).2 3 (by decide)⟩

end Qlex
